import Mathlib

/-!
Shallow embedding of the audio resampler buffering/timestamp logic of
`src/codec/audio/resampler.c` (`AudioResampler`, `ffw_audio_resampler_push_frame`,
`ffw_audio_resampler_take_frame`).

The resampling kernel (libswresample) and the sample-buffer allocator are
external collaborators; their results are supplied by an oracle record per
call (`KernelResp` for push, `TakeResp` for take), and the calls the code
issues to the kernel are recorded in an explicit trace (`KernelCall`), so
that claims of the form "the kernel is instructed to ..." are statements
about that trace.  Machine integers (`int`, `int64_t`) are modelled as `Int`;
all arithmetic in the C code stays far from the 64-bit boundary on the
inputs considered, and C's truncating division is `Int.tdiv`.  Sample data
is not modelled (no claim depends on it); a buffer (`AVFrame`) is its
logical length `nb_samples` plus its timestamp `pts`, with the allocated
capacity tracked separately (field `tmp_frame_capacity`, as in the C
struct).  `av_frame_is_writable` depends on whether the caller still holds
a clone of the buffer: buffers handed out by `take` make the internal
buffer non-writable until the environment reports the clone released
(`tmp_dropped` / `out_dropped` oracle fields), mirroring FFmpeg's
reference counting.
-/

namespace Resampler

/-- The constant `AV_NOPTS_VALUE`: timestamp of a freshly allocated `AVFrame`. -/
def noPts : Int := -(2 ^ 63)

/-- An audio buffer / frame: logical sample count plus presentation
timestamp (sample data itself is irrelevant to the verified claims). -/
structure Frame where
  pts : Int
  nb_samples : Int
  deriving Repr, DecidableEq

/-- The immutable configuration of `AudioResampler` (the fields of the C
struct set once in `ffw_audio_resampler_new` and never written again). -/
structure Config where
  target_sample_rate : Int
  source_sample_rate : Int
  target_frame_samples : Int
  deriving Repr, DecidableEq

/-- The mutable state of `AudioResampler`.  `tmp_frame` is the staging
buffer, `output_frame` the fixed-size accumulator; `tmp_writable` /
`out_writable` model `av_frame_is_writable` on the two buffers. -/
structure ResamplerState where
  tmp_frame : Option Frame
  tmp_frame_capacity : Int
  tmp_writable : Bool
  output_frame : Option Frame
  out_writable : Bool
  source_samples : Int
  expected_source_pts : Int
  output_samples : Int
  input_pts_offset : Int
  output_pts_offset : Int
  offset : Int
  flush : Bool
  deriving Repr, DecidableEq

/-- The state right after `ffw_audio_resampler_new`. -/
def initState : ResamplerState where
  tmp_frame := none
  tmp_frame_capacity := 0
  tmp_writable := true
  output_frame := none
  out_writable := true
  source_samples := 0
  expected_source_pts := 0
  output_samples := 0
  input_pts_offset := 0
  output_pts_offset := 0
  offset := 0
  flush := false

/-- One call issued to the resampling kernel (libswresample). -/
inductive KernelCall where
  | injectSilence (count : Int)
  | dropOutput (count : Int)
  | getOutSamples (input : Int)
  | getDelay (rate : Int)
  | convertFrame (input : Option Frame)
  deriving Repr, DecidableEq

/-- Oracle for one `push` call: the results the external kernel and the
allocator would return, and whether the caller has released any clone of
the staging buffer (making it writable again). -/
structure KernelResp where
  inject_ret : Int
  drop_ret : Int
  out_samples_ret : Int
  delay_ret : Int
  tmp_dropped : Bool
  alloc_ok : Bool
  convert_ret : Int
  produced : Nat
  deriving Repr, DecidableEq

/-- Oracle for one `take` call. -/
structure TakeResp where
  out_dropped : Bool
  alloc_ok : Bool
  deriving Repr, DecidableEq

structure PushResult where
  ret : Int
  state : ResamplerState
  calls : List KernelCall
  deriving Repr, DecidableEq

structure TakeResult where
  ret : Int
  state : ResamplerState
  frame : Option Frame
  deriving Repr, DecidableEq

/-- The gate at the top of `ffw_audio_resampler_push_frame`: the staging
buffer exists and has not been fully consumed yet. -/
def pendingOutput (s : ResamplerState) : Bool :=
  match s.tmp_frame with
  | some t => decide (s.offset < t.nb_samples)
  | none => false

/-- Lines 140-146: on the first observed chunk (`source_samples == 0`) fix
the pts origin in both time bases. -/
def initPts (cfg : Config) (s : ResamplerState) (pts : Int) : ResamplerState :=
  if s.source_samples = 0 then
    { s with
        expected_source_pts := pts
        input_pts_offset := pts
        output_pts_offset := Int.tdiv (pts * cfg.target_sample_rate) cfg.source_sample_rate }
  else s

/-- Lines 168-169: account the chunk (and the gap/overlap correction) in
the source-sample counter and recompute the expected pts. -/
def driftUpdate (s : ResamplerState) (nb delta : Int) : ResamplerState :=
  { s with
      source_samples := s.source_samples + nb + delta
      expected_source_pts := s.input_pts_offset + (s.source_samples + nb + delta) }

/-- The condition of lines 186-188: the staging buffer must be (re)allocated. -/
def needAlloc (s : ResamplerState) (k : KernelResp) (required : Int) : Prop :=
  s.tmp_frame = none ∨ (s.tmp_writable || k.tmp_dropped) = false ∨
    s.tmp_frame_capacity < required

instance (s : ResamplerState) (k : KernelResp) (required : Int) :
    Decidable (needAlloc s k required) := by
  unfold needAlloc; infer_instance

/-- Lines 182-216 of `ffw_audio_resampler_push_frame`: capacity check,
(re)allocation of the staging buffer, conversion, timestamp stamping. -/
def convertStage (s : ResamplerState) (frame : Option Frame) (k : KernelResp)
    (required : Int) (calls : List KernelCall) : PushResult :=
  if required < 0 then ⟨required, s, calls⟩
  else
    let tmpw := s.tmp_writable || k.tmp_dropped
    if needAlloc s k required then
      if k.alloc_ok then
        let s1 := { s with
            tmp_frame := some ⟨noPts, 0⟩
            tmp_frame_capacity := required
            tmp_writable := true
            offset := 0 }
        if k.convert_ret < 0 then
          ⟨k.convert_ret, s1, calls ++ [KernelCall.convertFrame frame]⟩
        else
          ⟨1, { s1 with
                  tmp_frame := some ⟨s1.output_samples + s1.output_pts_offset, (k.produced : Int)⟩
                  output_samples := s1.output_samples + (k.produced : Int) },
            calls ++ [KernelCall.convertFrame frame]⟩
      else
        ⟨-1, { s with tmp_frame := none, tmp_writable := tmpw }, calls⟩
    else
      let t0 := s.tmp_frame.getD ⟨noPts, 0⟩
      let s1 := { s with
          tmp_frame := some ⟨t0.pts, 0⟩
          tmp_writable := tmpw
          offset := 0 }
      if k.convert_ret < 0 then
        ⟨k.convert_ret, s1, calls ++ [KernelCall.convertFrame frame]⟩
      else
        ⟨1, { s1 with
                tmp_frame := some ⟨s1.output_samples + s1.output_pts_offset, (k.produced : Int)⟩
                output_samples := s1.output_samples + (k.produced : Int) },
          calls ++ [KernelCall.convertFrame frame]⟩

/-- The pts drift of a pushed chunk, computed (as in line 148) against the
expectation in force after the first-chunk initialisation. -/
def pushDelta (cfg : Config) (s : ResamplerState) (f : Frame) : Int :=
  f.pts - (initPts cfg s f.pts).expected_source_pts

/-- The number of output samples discarded for an overlap of `-delta`
source samples (line 161: truncating division, as in C). -/
def dropCount (cfg : Config) (delta : Int) : Int :=
  Int.tdiv (-delta * cfg.target_sample_rate) cfg.source_sample_rate

/-- The function `ffw_audio_resampler_push_frame`; `frame = none` is the flush sentinel. -/
def push (cfg : Config) (s : ResamplerState) (frame : Option Frame) (k : KernelResp) :
    PushResult :=
  if pendingOutput s then ⟨0, s, []⟩
  else
    match frame with
    | some f =>
        let s1 := initPts cfg s f.pts
        let delta := f.pts - s1.expected_source_pts
        if 0 < delta then
          if k.inject_ret < 0 then ⟨k.inject_ret, s1, [KernelCall.injectSilence delta]⟩
          else
            convertStage (driftUpdate s1 f.nb_samples delta) (some f) k k.out_samples_ret
              [KernelCall.injectSilence delta, KernelCall.getOutSamples f.nb_samples]
        else if delta < 0 then
          if k.drop_ret < 0 then
            ⟨k.drop_ret, s1, [KernelCall.dropOutput (dropCount cfg delta)]⟩
          else
            convertStage (driftUpdate s1 f.nb_samples delta) (some f) k k.out_samples_ret
              [KernelCall.dropOutput (dropCount cfg delta),
               KernelCall.getOutSamples f.nb_samples]
        else
          convertStage (driftUpdate s1 f.nb_samples delta) (some f) k k.out_samples_ret
            [KernelCall.getOutSamples f.nb_samples]
    | none =>
        convertStage { s with flush := true } none k (k.delay_ret + 3)
          [KernelCall.getDelay cfg.target_sample_rate]

/-- Lines 257-307 of `ffw_audio_resampler_take_frame` (fixed-frame-size mode,
after the accumulator has been secured): copy into the accumulator, emit
when full (or when flushing). -/
def takeCopy (cfg : Config) (s : ResamplerState) (t o : Frame) : TakeResult :=
  let required := cfg.target_frame_samples - o.nb_samples
  let available := t.nb_samples - s.offset
  let copy := min available required
  let o2 : Frame :=
    if 0 < copy then
      ⟨if o.nb_samples = 0 then t.pts + s.offset else o.pts, o.nb_samples + copy⟩
    else o
  let off2 := if 0 < copy then s.offset + copy else s.offset
  if s.flush = false ∧ o2.nb_samples < cfg.target_frame_samples then
    ⟨0, { s with output_frame := some o2, out_writable := true, offset := off2 }, none⟩
  else
    ⟨1, { s with
            output_frame := some ⟨o2.pts, 0⟩
            out_writable := false
            offset := off2
            flush := if t.nb_samples ≤ off2 then false else s.flush }, some o2⟩

/-- The function `ffw_audio_resampler_take_frame`. -/
def take (cfg : Config) (s : ResamplerState) (r : TakeResp) : TakeResult :=
  match s.tmp_frame with
  | none => ⟨0, s, none⟩
  | some t =>
      if cfg.target_frame_samples = 0 then
        if 0 < t.nb_samples then
          ⟨1, { s with
                  flush := false
                  tmp_frame := some ⟨t.pts, 0⟩
                  tmp_writable := false }, some t⟩
        else ⟨0, { s with flush := false }, none⟩
      else
        let outw := s.out_writable || r.out_dropped
        if s.output_frame = none ∨ outw = false then
          if r.alloc_ok then
            takeCopy cfg { s with out_writable := outw } t ⟨noPts, 0⟩
          else
            ⟨-1, { s with output_frame := none, out_writable := outw }, none⟩
        else
          takeCopy cfg { s with out_writable := outw } t (s.output_frame.getD ⟨noPts, 0⟩)

/-- One caller-visible operation on the resampler, with its oracle. -/
inductive Op where
  | pushOp (frame : Option Frame) (k : KernelResp)
  | takeOp (r : TakeResp)
  deriving Repr, DecidableEq

/-- The state transition of one operation, plus the frame it emits (if any). -/
def stepOp (cfg : Config) (s : ResamplerState) : Op → ResamplerState × Option Frame
  | Op.pushOp f k => ((push cfg s f k).state, none)
  | Op.takeOp r => let t := take cfg s r; (t.state, t.frame)

/-- Run a sequence of operations, collecting every emitted frame in order. -/
def run (cfg : Config) (s : ResamplerState) : List Op → ResamplerState × List Frame
  | [] => (s, [])
  | op :: ops =>
      let p := stepOp cfg s op
      let rest := run cfg p.1 ops
      (rest.1, p.2.toList ++ rest.2)

/-- Repeatedly `take` until no frame is produced, collecting the frames. -/
def takeRun (cfg : Config) : ResamplerState → List TakeResp → List Frame
  | _, [] => []
  | s, r :: rs =>
      let t := take cfg s r
      match t.frame with
      | some f => f :: takeRun cfg t.state rs
      | none => []

/-- The kernel calls issued by the drift-tracker part of a (non-flush) push. -/
def driftCalls (cfg : Config) (s : ResamplerState) (f : Frame) : List KernelCall :=
  if 0 < pushDelta cfg s f then [KernelCall.injectSilence (pushDelta cfg s f)]
  else if pushDelta cfg s f < 0 then [KernelCall.dropOutput (dropCount cfg (pushDelta cfg s f))]
  else []

/-- The bookkeeping invariant of the drift tracker: the expected source pts
always equals the pts origin plus the cumulative source-sample count
(line 169 restores it on every consumed chunk, `initPts` establishes it). -/
def CounterInv (s : ResamplerState) : Prop :=
  s.expected_source_pts = s.input_pts_offset + s.source_samples

/-- The number of samples currently held by the fixed-size accumulator. -/
def carryLen (s : ResamplerState) : Int :=
  match s.output_frame with
  | none => 0
  | some o => o.nb_samples

/-- The output-side position of the conversion stage, in target-rate pts
ticks: total samples ever produced plus the output pts origin.  A staging
buffer is stamped with this value at conversion time (line 213). -/
def posOut (s : ResamplerState) : Int :=
  s.output_samples + s.output_pts_offset

/-- The number of staged samples produced but not yet consumed by take. -/
def stagedLen (s : ResamplerState) : Int :=
  match s.tmp_frame with
  | none => 0
  | some t => t.nb_samples - s.offset

/-- The target-rate pts of the next sample that will be emitted: the
output position minus everything produced but still sitting in the
staging buffer or in the fixed-size accumulator. -/
def nextPts (s : ResamplerState) : Int :=
  posOut s - stagedLen s - carryLen s

/-- The reachability invariant tying buffers, counters and timestamps
together.  Every field is established by `initState` and preserved by
`push` and `take` (given `GoodStep` side conditions for `push`). -/
structure Inv (cfg : Config) (s : ResamplerState) : Prop where
  offset_nonneg : 0 ≤ s.offset
  offset_le : ∀ t, s.tmp_frame = some t → s.offset ≤ t.nb_samples
  tmp_nb_nonneg : ∀ t, s.tmp_frame = some t → 0 ≤ t.nb_samples
  tmp_stamp : ∀ t, s.tmp_frame = some t → t.nb_samples ≠ 0 →
    posOut s = t.pts + t.nb_samples
  tmp_le_os : ∀ t, s.tmp_frame = some t → t.nb_samples ≤ s.output_samples
  os_nonneg : 0 ≤ s.output_samples
  budget : stagedLen s + carryLen s ≤ s.output_samples
  out_nonneg : ∀ o, s.output_frame = some o → 0 ≤ o.nb_samples
  out_lt : ∀ o, s.output_frame = some o → o.nb_samples ≠ 0 →
    o.nb_samples < cfg.target_frame_samples
  out_stamp : ∀ o, s.output_frame = some o → o.nb_samples ≠ 0 → o.pts = nextPts s
  out_writ : s.out_writable = false → carryLen s = 0
  pass_offset : cfg.target_frame_samples = 0 → s.offset = 0
  pass_out : cfg.target_frame_samples = 0 → s.output_frame = none

/-- The side condition under which an operation keeps the emitted-pts
chain intact: a chunk push must not re-anchor the pts origin (which the
code does whenever `source_samples` is zero) after output was already
produced.  Chunk pushes finding `source_samples = 0` are admitted only
while `output_samples = 0` (in particular the genuine first chunk). -/
def goodOp (s : ResamplerState) : Op → Bool
  | Op.pushOp (some _) _ =>
      !(decide (s.source_samples = 0)) || decide (s.output_samples = 0)
  | _ => true

/-- All operations of a run satisfy `goodOp` in the state they execute in. -/
def goodRun (cfg : Config) : ResamplerState → List Op → Bool
  | _, [] => true
  | s, op :: ops => goodOp s op && goodRun cfg (stepOp cfg s op).1 ops

/-- The emitted-frame chain relation: ignoring zero-length frames, each
frame's pts continues where the previous frame ended (`a` is the expected
pts of the next non-empty frame, `none` when unconstrained). -/
def FollowsFrom : Option Int → List Frame → Prop
  | _, [] => True
  | a, f :: l =>
      if f.nb_samples = 0 then FollowsFrom a l
      else
        0 < f.nb_samples ∧ (∀ p, a = some p → f.pts = p) ∧
          FollowsFrom (some (f.pts + f.nb_samples)) l

/-- A 1:1 passthrough configuration (a fixture for concrete runs). -/
def cfgUnit : Config := ⟨1, 1, 0⟩

/-- A kernel oracle in which every call succeeds and the conversion
produces no output samples (the kernel buffers them internally). -/
def respOK : KernelResp := ⟨0, 0, 0, 0, false, true, 0, 0⟩

/-! Reduction lemmas for `convertStage` and `push`. -/

theorem convertStage_capacity_fail {s : ResamplerState} {frame : Option Frame}
    {k : KernelResp} {required : Int} {calls : List KernelCall} (h : required < 0) :
    convertStage s frame k required calls = ⟨required, s, calls⟩ := by
  simp [convertStage, h]

theorem convertStage_alloc_fail {s : ResamplerState} {frame : Option Frame}
    {k : KernelResp} {required : Int} {calls : List KernelCall}
    (h0 : ¬ required < 0) (hna : needAlloc s k required) (ha : k.alloc_ok = false) :
    convertStage s frame k required calls =
      ⟨-1, { s with tmp_frame := none, tmp_writable := s.tmp_writable || k.tmp_dropped },
        calls⟩ := by
  simp [convertStage, h0, hna, ha]

theorem convertStage_convert_fail {s : ResamplerState} {frame : Option Frame}
    {k : KernelResp} {required : Int} {calls : List KernelCall}
    (h0 : ¬ required < 0) (ha : needAlloc s k required → k.alloc_ok = true)
    (hc : k.convert_ret < 0) :
    convertStage s frame k required calls =
      ⟨k.convert_ret,
        { s with
            tmp_frame :=
              some ⟨if needAlloc s k required then noPts else (s.tmp_frame.getD ⟨noPts, 0⟩).pts, 0⟩
            tmp_frame_capacity :=
              if needAlloc s k required then required else s.tmp_frame_capacity
            tmp_writable :=
              if needAlloc s k required then true else s.tmp_writable || k.tmp_dropped
            offset := 0 },
        calls ++ [KernelCall.convertFrame frame]⟩ := by
  by_cases hna : needAlloc s k required
  · simp [convertStage, h0, hna, ha hna, hc]
  · simp [convertStage, h0, hna, hc]

theorem convertStage_success {s : ResamplerState} {frame : Option Frame}
    {k : KernelResp} {required : Int} {calls : List KernelCall}
    (h0 : ¬ required < 0) (ha : needAlloc s k required → k.alloc_ok = true)
    (hc : ¬ k.convert_ret < 0) :
    convertStage s frame k required calls =
      ⟨1,
        { s with
            tmp_frame := some ⟨s.output_samples + s.output_pts_offset, (k.produced : Int)⟩
            tmp_frame_capacity :=
              if needAlloc s k required then required else s.tmp_frame_capacity
            tmp_writable :=
              if needAlloc s k required then true else s.tmp_writable || k.tmp_dropped
            offset := 0
            output_samples := s.output_samples + (k.produced : Int) },
        calls ++ [KernelCall.convertFrame frame]⟩ := by
  by_cases hna : needAlloc s k required
  · simp [convertStage, h0, hna, ha hna, hc]
  · simp [convertStage, h0, hna, hc]

theorem push_data {cfg : Config} {s : ResamplerState} {f : Frame} {k : KernelResp}
    (hg : pendingOutput s = false)
    (hi : 0 < pushDelta cfg s f → 0 ≤ k.inject_ret)
    (hd : pushDelta cfg s f < 0 → 0 ≤ k.drop_ret) :
    push cfg s (some f) k =
      convertStage (driftUpdate (initPts cfg s f.pts) f.nb_samples (pushDelta cfg s f))
        (some f) k k.out_samples_ret
        (driftCalls cfg s f ++ [KernelCall.getOutSamples f.nb_samples]) := by
  unfold push driftCalls pushDelta dropCount
  rw [hg]
  simp only [Bool.false_eq_true, if_false]
  unfold pushDelta at hi hd
  generalize hD : f.pts - (initPts cfg s f.pts).expected_source_pts = D at hi hd ⊢
  rcases lt_trichotomy D 0 with hneg | hzero | hpos
  · have h1 : ¬ 0 < D := by omega
    have h2 : ¬ k.drop_ret < 0 := by have := hd hneg; omega
    rw [if_neg h1, if_pos hneg, if_neg h2, if_neg h1, if_pos hneg]
    rfl
  · subst hzero
    have h1 : ¬ (0 : Int) < 0 := by omega
    have h2 : ¬ (0 : Int) < 0 := by omega
    rw [if_neg h1, if_neg (by omega : ¬ (0 : Int) < 0), if_neg h1,
      if_neg (by omega : ¬ (0 : Int) < 0)]
    simp
  · have h2 : ¬ k.inject_ret < 0 := by have := hi hpos; omega
    rw [if_pos hpos, if_neg h2, if_pos hpos]
    rfl

theorem push_flush {cfg : Config} {s : ResamplerState} {k : KernelResp}
    (hg : pendingOutput s = false) :
    push cfg s none k =
      convertStage { s with flush := true } none k (k.delay_ret + 3)
        [KernelCall.getDelay cfg.target_sample_rate] := by
  unfold push
  rw [hg]
  simp

/-- The conversion stage never touches the drift counters, the pts offsets,
the flush flag or the fixed-size accumulator. -/
theorem convertStage_preserves (s : ResamplerState) (frame : Option Frame)
    (k : KernelResp) (required : Int) (calls : List KernelCall) :
    (convertStage s frame k required calls).state.source_samples = s.source_samples ∧
    (convertStage s frame k required calls).state.expected_source_pts = s.expected_source_pts ∧
    (convertStage s frame k required calls).state.input_pts_offset = s.input_pts_offset ∧
    (convertStage s frame k required calls).state.output_pts_offset = s.output_pts_offset ∧
    (convertStage s frame k required calls).state.flush = s.flush ∧
    (convertStage s frame k required calls).state.output_frame = s.output_frame ∧
    (convertStage s frame k required calls).state.out_writable = s.out_writable := by
  unfold convertStage
  split_ifs <;> simp

/-- A `take` call never touches the drift counters, the pts offsets, the
emission counter or the staging capacity. -/
theorem take_preserves (cfg : Config) (s : ResamplerState) (r : TakeResp) :
    (take cfg s r).state.source_samples = s.source_samples ∧
    (take cfg s r).state.expected_source_pts = s.expected_source_pts ∧
    (take cfg s r).state.input_pts_offset = s.input_pts_offset ∧
    (take cfg s r).state.output_pts_offset = s.output_pts_offset ∧
    (take cfg s r).state.output_samples = s.output_samples ∧
    (take cfg s r).state.tmp_frame_capacity = s.tmp_frame_capacity := by
  rcases htf : s.tmp_frame with _ | t <;>
    simp only [take, takeCopy, htf] <;>
    (try split_ifs) <;> simp

/-- The pts offsets after a non-flush push: unchanged when the staging gate
blocks the call, otherwise exactly the value fixed by `initPts`. -/
theorem push_data_offsets (cfg : Config) (s : ResamplerState) (f : Frame) (k : KernelResp) :
    (push cfg s (some f) k).state.input_pts_offset
        = (if pendingOutput s then s else initPts cfg s f.pts).input_pts_offset ∧
      (push cfg s (some f) k).state.output_pts_offset
        = (if pendingOutput s then s else initPts cfg s f.pts).output_pts_offset := by
  by_cases hg : pendingOutput s
  · unfold push
    rw [hg]
    simp
  · rw [Bool.not_eq_true] at hg
    unfold push
    rw [hg]
    simp only [Bool.false_eq_true, if_false]
    have h1 := convertStage_preserves
      (driftUpdate (initPts cfg s f.pts) f.nb_samples (f.pts - (initPts cfg s f.pts).expected_source_pts))
      (some f) k k.out_samples_ret
      [KernelCall.injectSilence (f.pts - (initPts cfg s f.pts).expected_source_pts),
        KernelCall.getOutSamples f.nb_samples]
    have h2 := convertStage_preserves
      (driftUpdate (initPts cfg s f.pts) f.nb_samples (f.pts - (initPts cfg s f.pts).expected_source_pts))
      (some f) k k.out_samples_ret
      [KernelCall.dropOutput (dropCount cfg (f.pts - (initPts cfg s f.pts).expected_source_pts)),
        KernelCall.getOutSamples f.nb_samples]
    have h3 := convertStage_preserves
      (driftUpdate (initPts cfg s f.pts) f.nb_samples (f.pts - (initPts cfg s f.pts).expected_source_pts))
      (some f) k k.out_samples_ret
      [KernelCall.getOutSamples f.nb_samples]
    split_ifs <;>
      simp_all [driftUpdate]

theorem counterInv_initState : CounterInv initState := by
  simp [CounterInv, initState]

theorem counterInv_initPts (cfg : Config) (s : ResamplerState) (pts : Int)
    (h : CounterInv s) : CounterInv (initPts cfg s pts) := by
  unfold initPts
  split_ifs with h0
  · simp [CounterInv, h0]
  · exact h

theorem counterInv_push (cfg : Config) (s : ResamplerState) (frame : Option Frame)
    (k : KernelResp) (h : CounterInv s) : CounterInv (push cfg s frame k).state := by
  unfold CounterInv at *
  by_cases hg : pendingOutput s
  · unfold push; rw [hg]; simpa using h
  · rw [Bool.not_eq_true] at hg
    rcases frame with _ | f
    · rw [push_flush hg]
      have := convertStage_preserves { s with flush := true } none k (k.delay_ret + 3)
        [KernelCall.getDelay cfg.target_sample_rate]
      simp_all
    · have hinit := counterInv_initPts cfg s f.pts h
      unfold CounterInv at hinit
      unfold push
      rw [hg]
      simp only [Bool.false_eq_true, if_false]
      have hdu : ∀ nb delta,
          (driftUpdate (initPts cfg s f.pts) nb delta).expected_source_pts =
            (driftUpdate (initPts cfg s f.pts) nb delta).input_pts_offset +
              (driftUpdate (initPts cfg s f.pts) nb delta).source_samples := by
        intro nb delta; simp [driftUpdate]
      split_ifs <;>
        first
          | exact hinit
          | · have := convertStage_preserves
                (driftUpdate (initPts cfg s f.pts) f.nb_samples
                  (f.pts - (initPts cfg s f.pts).expected_source_pts)) (some f) k
                k.out_samples_ret
              simp_all [driftUpdate]

theorem counterInv_take (cfg : Config) (s : ResamplerState) (r : TakeResp)
    (h : CounterInv s) : CounterInv (take cfg s r).state := by
  have := take_preserves cfg s r
  unfold CounterInv at *
  simp_all

/-! Claim theorems. -/

/-- C3: whenever the staging buffer exists and is not fully consumed
(`offset < staging_buffer.length`), any push call — with a chunk or with
the flush sentinel — returns the "not consumed" result `0`, issues no
kernel call, and leaves the entire resampler state unchanged
(lines 133-136 of `resampler.c`). -/
theorem push_pending_noop (cfg : Config) (s : ResamplerState) (frame : Option Frame)
    (k : KernelResp) (t : Frame) (ht : s.tmp_frame = some t)
    (h : s.offset < t.nb_samples) :
    push cfg s frame k = ⟨0, s, []⟩ := by
  have hp : pendingOutput s = true := by simp [pendingOutput, ht, h]
  unfold push
  rw [hp]
  simp

theorem push_pending_noop_witness :
    (⟨some ⟨0, 5⟩, 8, true, none, true, 5, 5, 5, 0, 0, 3, false⟩ : ResamplerState).tmp_frame
        = some ⟨0, 5⟩ ∧
      (3 : Int) < 5 ∧
      push cfgUnit ⟨some ⟨0, 5⟩, 8, true, none, true, 5, 5, 5, 0, 0, 3, false⟩ none respOK =
        ⟨0, ⟨some ⟨0, 5⟩, 8, true, none, true, 5, 5, 5, 0, 0, 3, false⟩, []⟩ :=
  ⟨rfl, by decide,
    push_pending_noop cfgUnit ⟨some ⟨0, 5⟩, 8, true, none, true, 5, 5, 5, 0, 0, 3, false⟩
      none respOK ⟨0, 5⟩ rfl (by decide)⟩

/-- C9: as long as no staging buffer exists (no push has ever converted
anything, in particular on a freshly constructed resampler), every take
call returns the "no-output-yet" result `0`, never an error, and leaves
the state unchanged (lines 224-227 of `resampler.c`). -/
theorem take_before_push (cfg : Config) (s : ResamplerState) (r : TakeResp)
    (h : s.tmp_frame = none) : take cfg s r = ⟨0, s, none⟩ := by
  simp [take, h]

theorem take_before_push_witness :
    initState.tmp_frame = none ∧
      take cfgUnit initState ⟨false, true⟩ = ⟨0, initState, none⟩ :=
  ⟨rfl, take_before_push cfgUnit initState ⟨false, true⟩ rfl⟩

/-- C10: in passthrough mode (`target_frame_samples = 0`), every take call
on a state whose staging buffer exists clears the flush flag
unconditionally — in particular also when the staging buffer is empty, in
which case the call returns "no-output-yet" with no frame and the only
state change is the cleared flush flag (lines 229-241 of `resampler.c`). -/
theorem passthrough_take_clears_flush (cfg : Config) (s : ResamplerState) (r : TakeResp)
    (t : Frame) (hF : cfg.target_frame_samples = 0) (ht : s.tmp_frame = some t) :
    (take cfg s r).state.flush = false ∧
      (t.nb_samples = 0 → take cfg s r = ⟨0, { s with flush := false }, none⟩) := by
  unfold take
  rw [ht]
  simp only [hF, if_pos rfl]
  by_cases hnb : 0 < t.nb_samples
  · rw [if_pos hnb]
    exact ⟨rfl, fun h0 => by omega⟩
  · rw [if_neg hnb]
    exact ⟨rfl, fun _ => rfl⟩

theorem passthrough_take_clears_flush_witness :
    cfgUnit.target_frame_samples = 0 ∧
      (⟨some ⟨7, 0⟩, 3, true, none, true, 4, 4, 4, 0, 0, 0, true⟩
          : ResamplerState).tmp_frame = some ⟨7, 0⟩ ∧
      (take cfgUnit ⟨some ⟨7, 0⟩, 3, true, none, true, 4, 4, 4, 0, 0, 0, true⟩
          ⟨false, true⟩).state.flush = false ∧
      take cfgUnit ⟨some ⟨7, 0⟩, 3, true, none, true, 4, 4, 4, 0, 0, 0, true⟩ ⟨false, true⟩ =
        ⟨0, { (⟨some ⟨7, 0⟩, 3, true, none, true, 4, 4, 4, 0, 0, 0, true⟩ : ResamplerState)
              with flush := false }, none⟩ := by
  have h := passthrough_take_clears_flush cfgUnit
    ⟨some ⟨7, 0⟩, 3, true, none, true, 4, 4, 4, 0, 0, 0, true⟩ ⟨false, true⟩ ⟨7, 0⟩ rfl rfl
  exact ⟨rfl, rfl, h.1, h.2 rfl⟩

/-- C5 counterexample: pushing the flush sentinel on a state with no
staging buffer (a fresh resampler) does not return an error: the code has
no "nothing to flush" branch, it allocates a staging buffer of capacity
`delay + 3` and converts with no input, returning `1` ("consumed"). -/
theorem flush_without_staging_cex :
    initState.tmp_frame = none ∧
      (push cfgUnit initState none respOK).ret = 1 ∧
      ¬ (push cfgUnit initState none respOK).ret < 0 := by
  refine ⟨rfl, ?_, ?_⟩ <;> decide

/-- C5 (amended): pushing the flush sentinel when the staging buffer is
absent is not an error.  The flush flag is set, the kernel's delay is
queried, a staging buffer is allocated and an input-less conversion is
issued; provided the kernel and the allocator succeed, the call returns
`1` ("consumed"). -/
theorem flush_without_staging_succeeds (cfg : Config) (s : ResamplerState) (k : KernelResp)
    (h : s.tmp_frame = none) (hdel : 0 ≤ k.delay_ret) (ha : k.alloc_ok = true)
    (hc : 0 ≤ k.convert_ret) :
    (push cfg s none k).ret = 1 ∧ (push cfg s none k).state.flush = true ∧
      (push cfg s none k).calls =
        [KernelCall.getDelay cfg.target_sample_rate, KernelCall.convertFrame none] := by
  have hg : pendingOutput s = false := by simp [pendingOutput, h]
  rw [push_flush hg, convertStage_success (by omega) (fun _ => ha) (by omega)]
  exact ⟨rfl, rfl, rfl⟩

theorem flush_without_staging_succeeds_witness :
    initState.tmp_frame = none ∧ (0 : Int) ≤ respOK.delay_ret ∧
      (push cfgUnit initState none respOK).ret = 1 ∧
      (push cfgUnit initState none respOK).state.flush = true ∧
      (push cfgUnit initState none respOK).calls =
        [KernelCall.getDelay cfgUnit.target_sample_rate, KernelCall.convertFrame none] := by
  have h := flush_without_staging_succeeds cfgUnit initState respOK rfl (by decide) rfl
    (by decide)
  exact ⟨rfl, by decide, h.1, h.2.1, h.2.2⟩

/-- C7 counterexample: the code detects "first chunk" by
`source_samples == 0` (line 140), and drift corrections can drive the
cumulative counter back to zero.  After chunk A (pts 10, len 5) the
offsets are fixed at 10; chunk B (pts 5, len 5) overlaps so far that
`source_samples` returns to 0; chunk C (pts 100, len 1) then reassigns
`input_pts_offset` to 100.  All three pushes are consumed (`ret = 1`). -/
theorem pts_offset_reassigned_cex :
    (push cfgUnit initState (some ⟨10, 5⟩) respOK).ret = 1 ∧
      (push cfgUnit initState (some ⟨10, 5⟩) respOK).state.input_pts_offset = 10 ∧
      (push cfgUnit (push cfgUnit initState (some ⟨10, 5⟩) respOK).state
          (some ⟨5, 5⟩) respOK).ret = 1 ∧
      (push cfgUnit (push cfgUnit (push cfgUnit initState (some ⟨10, 5⟩) respOK).state
          (some ⟨5, 5⟩) respOK).state (some ⟨100, 1⟩) respOK).ret = 1 ∧
      (push cfgUnit (push cfgUnit (push cfgUnit initState (some ⟨10, 5⟩) respOK).state
          (some ⟨5, 5⟩) respOK).state (some ⟨100, 1⟩) respOK).state.input_pts_offset = 100 ∧
      (10 : Int) ≠ 100 := by
  refine ⟨?_, ?_, ?_, ?_, ?_, ?_⟩ <;> decide

/-- C7 (amended): `input_pts_offset` / `output_pts_offset` are (re)assigned
by exactly those chunk pushes that find `source_samples = 0`: they are set
from the first chunk ever pushed (with
`output_pts_offset = pts * target_rate / source_rate`, truncating), stay
`0` when no chunk is ever pushed, and are never written by a flush push, a
take call, or a chunk push finding `source_samples ≠ 0` — but a later
chunk push does reassign them whenever drift corrections have driven
`source_samples` back to `0`. -/
theorem pts_offset_assignment (cfg : Config) (s : ResamplerState) (k : KernelResp)
    (r : TakeResp) (f : Frame) :
    ((push cfg s none k).state.input_pts_offset = s.input_pts_offset ∧
      (push cfg s none k).state.output_pts_offset = s.output_pts_offset) ∧
    ((take cfg s r).state.input_pts_offset = s.input_pts_offset ∧
      (take cfg s r).state.output_pts_offset = s.output_pts_offset) ∧
    (s.source_samples ≠ 0 →
      (push cfg s (some f) k).state.input_pts_offset = s.input_pts_offset ∧
      (push cfg s (some f) k).state.output_pts_offset = s.output_pts_offset) ∧
    (pendingOutput s = false → s.source_samples = 0 →
      (push cfg s (some f) k).state.input_pts_offset = f.pts ∧
      (push cfg s (some f) k).state.output_pts_offset =
        Int.tdiv (f.pts * cfg.target_sample_rate) cfg.source_sample_rate) := by
  refine ⟨?_, ?_, ?_, ?_⟩
  · by_cases hg : pendingOutput s
    · unfold push; rw [hg]; simp
    · rw [Bool.not_eq_true] at hg
      rw [push_flush hg]
      have := convertStage_preserves { s with flush := true } none k (k.delay_ret + 3)
        [KernelCall.getDelay cfg.target_sample_rate]
      simp_all
  · have := take_preserves cfg s r
    simp_all
  · intro hss
    have h := push_data_offsets cfg s f k
    have hinit : initPts cfg s f.pts = s := by simp [initPts, hss]
    rcases h with ⟨h1, h2⟩
    constructor
    · rw [h1]; split_ifs <;> simp [hinit]
    · rw [h2]; split_ifs <;> simp [hinit]
  · intro hg hss
    have h := push_data_offsets cfg s f k
    rw [hg] at h
    have hinit : initPts cfg s f.pts =
        { s with
            expected_source_pts := f.pts
            input_pts_offset := f.pts
            output_pts_offset :=
              Int.tdiv (f.pts * cfg.target_sample_rate) cfg.source_sample_rate } := by
      simp [initPts, hss]
    rcases h with ⟨h1, h2⟩
    simp only [Bool.false_eq_true, if_false] at h1 h2
    rw [h1, h2, hinit]
    exact ⟨rfl, rfl⟩

theorem pts_offset_assignment_witness :
    initState.source_samples = 0 ∧ pendingOutput initState = false ∧
      (push cfgUnit initState (some ⟨10, 5⟩) respOK).state.input_pts_offset = (10 : Int) ∧
      (push cfgUnit initState (some ⟨10, 5⟩) respOK).state.output_pts_offset =
        Int.tdiv ((10 : Int) * cfgUnit.target_sample_rate) cfgUnit.source_sample_rate := by
  have h := (pts_offset_assignment cfgUnit initState respOK ⟨false, true⟩ ⟨10, 5⟩).2.2.2
    rfl rfl
  exact ⟨rfl, rfl, h.1, h.2⟩

/-- C8 counterexample: `expected_source_pts` is not monotone across
consumed chunks.  Chunk A (pts 0, len 100) sets it to 100; the heavily
overlapping chunk B (pts 10, len 5) is consumed (`ret = 1`) and lowers it
to 15. -/
theorem expected_pts_decrease_cex :
    (push cfgUnit initState (some ⟨0, 100⟩) respOK).ret = 1 ∧
      (push cfgUnit initState (some ⟨0, 100⟩) respOK).state.expected_source_pts = 100 ∧
      (push cfgUnit (push cfgUnit initState (some ⟨0, 100⟩) respOK).state
          (some ⟨10, 5⟩) respOK).ret = 1 ∧
      (push cfgUnit (push cfgUnit initState (some ⟨0, 100⟩) respOK).state
          (some ⟨10, 5⟩) respOK).state.expected_source_pts = 15 ∧
      ¬ (100 : Int) ≤ 15 := by
  refine ⟨?_, ?_, ?_, ?_, ?_⟩ <;> decide

/-- C8 (amended): after every chunk push that passes the staging gate and
whose drift-correction kernel calls succeed, `expected_source_pts` equals
`chunk.pts + chunk.length` — so across consumed chunks it is non-decreasing
exactly when the chunk end positions `pts + length` are, and a chunk ending
before its predecessor's end strictly decreases it.  The hypothesis
`CounterInv` (`expected_source_pts = input_pts_offset + source_samples`) is
the bookkeeping invariant; it holds initially and is preserved by every
`push` and `take` (`counterInv_initState`, `counterInv_push`,
`counterInv_take`). -/
theorem expected_pts_after_push (cfg : Config) (s : ResamplerState) (f : Frame)
    (k : KernelResp) (hInv : CounterInv s) (hg : pendingOutput s = false)
    (hi : 0 < pushDelta cfg s f → 0 ≤ k.inject_ret)
    (hd : pushDelta cfg s f < 0 → 0 ≤ k.drop_ret) :
    (push cfg s (some f) k).state.expected_source_pts = f.pts + f.nb_samples := by
  rw [push_data hg hi hd]
  have hpres := convertStage_preserves
    (driftUpdate (initPts cfg s f.pts) f.nb_samples (pushDelta cfg s f)) (some f) k
    k.out_samples_ret (driftCalls cfg s f ++ [KernelCall.getOutSamples f.nb_samples])
  rw [hpres.2.1]
  have hinit := counterInv_initPts cfg s f.pts hInv
  unfold CounterInv at hinit
  unfold pushDelta
  simp only [driftUpdate]
  omega

theorem expected_pts_after_push_witness :
    CounterInv initState ∧ pendingOutput initState = false ∧
      (push cfgUnit initState (some ⟨10, 5⟩) respOK).state.expected_source_pts =
        (10 : Int) + 5 :=
  ⟨counterInv_initState, rfl,
    expected_pts_after_push cfgUnit initState ⟨10, 5⟩ respOK counterInv_initState rfl
      (fun _ => by decide) (fun _ => by decide)⟩

/-- C1: a chunk pushed through an open staging gate triggers the drift
step of lines 139-169: with `delta = pts - expected_source_pts`
(computed against the expectation in force after the first-chunk
initialisation, `pushDelta`), a positive delta issues exactly one
`swr_inject_silence(delta)` call before the conversion, a negative delta
issues exactly one `swr_drop_output(-delta * target_rate / source_rate)`
call (truncating division) before the conversion, and afterwards
`source_samples` has grown by `chunk.length + delta` while
`expected_source_pts = input_pts_offset + source_samples`. -/
theorem push_drift_tracker (cfg : Config) (s : ResamplerState) (f : Frame) (k : KernelResp)
    (hg : pendingOutput s = false)
    (hi : 0 < pushDelta cfg s f → 0 ≤ k.inject_ret)
    (hd : pushDelta cfg s f < 0 → 0 ≤ k.drop_ret)
    (hcap : 0 ≤ k.out_samples_ret) (ha : k.alloc_ok = true) (hcv : 0 ≤ k.convert_ret) :
    (push cfg s (some f) k).calls =
      (if 0 < pushDelta cfg s f then [KernelCall.injectSilence (pushDelta cfg s f)]
       else if pushDelta cfg s f < 0 then
         [KernelCall.dropOutput
            (Int.tdiv (-(pushDelta cfg s f) * cfg.target_sample_rate) cfg.source_sample_rate)]
       else []) ++
        [KernelCall.getOutSamples f.nb_samples, KernelCall.convertFrame (some f)] ∧
    (push cfg s (some f) k).state.source_samples
      = s.source_samples + f.nb_samples + pushDelta cfg s f ∧
    (push cfg s (some f) k).state.expected_source_pts
      = (push cfg s (some f) k).state.input_pts_offset +
        (push cfg s (some f) k).state.source_samples := by
  rw [push_data hg hi hd, convertStage_success (by omega) (fun _ => ha) (by omega)]
  refine ⟨?_, ?_, ?_⟩
  · show driftCalls cfg s f ++ [KernelCall.getOutSamples f.nb_samples] ++
        [KernelCall.convertFrame (some f)] = _
    unfold driftCalls dropCount
    split_ifs <;> rfl
  · show (driftUpdate (initPts cfg s f.pts) f.nb_samples (pushDelta cfg s f)).source_samples = _
    unfold driftUpdate initPts
    split_ifs <;> rfl
  · show (driftUpdate (initPts cfg s f.pts) f.nb_samples (pushDelta cfg s f)).expected_source_pts
      = (driftUpdate (initPts cfg s f.pts) f.nb_samples (pushDelta cfg s f)).input_pts_offset +
        (driftUpdate (initPts cfg s f.pts) f.nb_samples (pushDelta cfg s f)).source_samples
    unfold driftUpdate
    rfl

theorem push_drift_tracker_witness :
    pendingOutput (push cfgUnit initState (some ⟨0, 100⟩) respOK).state = false ∧
      pushDelta cfgUnit (push cfgUnit initState (some ⟨0, 100⟩) respOK).state ⟨150, 50⟩ = 50 ∧
      (push cfgUnit (push cfgUnit initState (some ⟨0, 100⟩) respOK).state
          (some ⟨150, 50⟩) respOK).calls =
        (if 0 < pushDelta cfgUnit (push cfgUnit initState (some ⟨0, 100⟩) respOK).state ⟨150, 50⟩
         then [KernelCall.injectSilence
                (pushDelta cfgUnit (push cfgUnit initState (some ⟨0, 100⟩) respOK).state
                  ⟨150, 50⟩)]
         else if pushDelta cfgUnit (push cfgUnit initState (some ⟨0, 100⟩) respOK).state
             ⟨150, 50⟩ < 0 then
           [KernelCall.dropOutput
              (Int.tdiv
                (-(pushDelta cfgUnit (push cfgUnit initState (some ⟨0, 100⟩) respOK).state
                    ⟨150, 50⟩) * cfgUnit.target_sample_rate) cfgUnit.source_sample_rate)]
         else []) ++
          [KernelCall.getOutSamples (50 : Int), KernelCall.convertFrame (some ⟨150, 50⟩)] ∧
      (push cfgUnit (push cfgUnit initState (some ⟨0, 100⟩) respOK).state
          (some ⟨150, 50⟩) respOK).state.source_samples =
        (push cfgUnit initState (some ⟨0, 100⟩) respOK).state.source_samples + 50 +
          pushDelta cfgUnit (push cfgUnit initState (some ⟨0, 100⟩) respOK).state ⟨150, 50⟩ := by
  have h := push_drift_tracker cfgUnit (push cfgUnit initState (some ⟨0, 100⟩) respOK).state
    ⟨150, 50⟩ respOK (by decide) (fun _ => by decide) (fun _ => by decide) (by decide) rfl
    (by decide)
  exact ⟨by decide, by decide, h.1, h.2.1⟩

/-- C4 counterexample: a failing conversion call does not leave the state
"the same as before the push() call".  On a state whose staging buffer
(length 5) is fully consumed (`offset = 5`), a push whose conversion
returns `-22` propagates `-22` but resets `offset` to `0` — `offset` is
one of the fields the claim says are preserved. -/
theorem push_error_state_change_cex :
    (push cfgUnit ⟨some ⟨0, 5⟩, 8, true, none, true, 5, 5, 5, 0, 0, 5, false⟩
        (some ⟨5, 2⟩) ⟨0, 0, 7, 0, false, true, -22, 0⟩).ret = -22 ∧
      (⟨some ⟨0, 5⟩, 8, true, none, true, 5, 5, 5, 0, 0, 5, false⟩
          : ResamplerState).offset = 5 ∧
      (push cfgUnit ⟨some ⟨0, 5⟩, 8, true, none, true, 5, 5, 5, 0, 0, 5, false⟩
          (some ⟨5, 2⟩) ⟨0, 0, 7, 0, false, true, -22, 0⟩).state.offset = 0 ∧
      (5 : Int) ≠ 0 := by
  refine ⟨?_, ?_, ?_, ?_⟩ <;> decide

/-- C4 (amended): every negative kernel result is propagated verbatim and
no mutation happens after the failing call, but mutations made before it
are kept rather than rolled back: a capacity-query failure on a chunk
keeps the drift-tracker update (`driftUpdate` over `initPts`); an
allocation failure additionally leaves the staging buffer freed and
returns `-1`; a conversion failure keeps the drift update and the staging
reset (`offset = 0`, staging length `0`) while `output_samples` and the
other counters are untouched; a capacity failure on a flush keeps the
flush flag already set. -/
theorem push_error_propagation (cfg : Config) (s : ResamplerState) (f : Frame)
    (k : KernelResp) (hg : pendingOutput s = false)
    (hi : 0 < pushDelta cfg s f → 0 ≤ k.inject_ret)
    (hd : pushDelta cfg s f < 0 → 0 ≤ k.drop_ret) :
    (k.out_samples_ret < 0 →
      push cfg s (some f) k =
        ⟨k.out_samples_ret,
          driftUpdate (initPts cfg s f.pts) f.nb_samples (pushDelta cfg s f),
          driftCalls cfg s f ++ [KernelCall.getOutSamples f.nb_samples]⟩) ∧
    (0 ≤ k.out_samples_ret → k.alloc_ok = false →
      needAlloc (driftUpdate (initPts cfg s f.pts) f.nb_samples (pushDelta cfg s f)) k
        k.out_samples_ret →
      (push cfg s (some f) k).ret = -1 ∧
      (push cfg s (some f) k).state =
        { driftUpdate (initPts cfg s f.pts) f.nb_samples (pushDelta cfg s f) with
            tmp_frame := none
            tmp_writable := s.tmp_writable || k.tmp_dropped }) ∧
    (0 ≤ k.out_samples_ret →
      (needAlloc (driftUpdate (initPts cfg s f.pts) f.nb_samples (pushDelta cfg s f)) k
          k.out_samples_ret → k.alloc_ok = true) →
      k.convert_ret < 0 →
      (push cfg s (some f) k).ret = k.convert_ret ∧
      (push cfg s (some f) k).state.output_samples = s.output_samples ∧
      (push cfg s (some f) k).state.offset = 0 ∧
      (push cfg s (some f) k).state.source_samples
        = s.source_samples + f.nb_samples + pushDelta cfg s f ∧
      (∃ t, (push cfg s (some f) k).state.tmp_frame = some t ∧ t.nb_samples = 0)) ∧
    (k.delay_ret + 3 < 0 →
      push cfg s none k =
        ⟨k.delay_ret + 3, { s with flush := true },
          [KernelCall.getDelay cfg.target_sample_rate]⟩) := by
  refine ⟨?_, ?_, ?_, ?_⟩
  · intro hcap
    rw [push_data hg hi hd, convertStage_capacity_fail hcap]
  · intro hcap hal hna
    rw [push_data hg hi hd, convertStage_alloc_fail (by omega) hna hal]
    refine ⟨rfl, ?_⟩
    have : (driftUpdate (initPts cfg s f.pts) f.nb_samples
        (pushDelta cfg s f)).tmp_writable = s.tmp_writable := by
      unfold driftUpdate initPts; split_ifs <;> rfl
    simp [this]
  · intro hcap hal hcv
    rw [push_data hg hi hd, convertStage_convert_fail (by omega) hal hcv]
    have hos : (driftUpdate (initPts cfg s f.pts) f.nb_samples
        (pushDelta cfg s f)).output_samples = s.output_samples := by
      unfold driftUpdate initPts; split_ifs <;> rfl
    have hss : (driftUpdate (initPts cfg s f.pts) f.nb_samples
        (pushDelta cfg s f)).source_samples
          = s.source_samples + f.nb_samples + pushDelta cfg s f := by
      unfold driftUpdate initPts; split_ifs <;> rfl
    exact ⟨rfl, hos, rfl, hss, ⟨_, rfl, rfl⟩⟩
  · intro hdel
    rw [push_flush hg, convertStage_capacity_fail hdel]

theorem takeCopy_no_emit (cfg : Config) (s : ResamplerState) (t o : Frame)
    (hfl : s.flush = false) (hnb : 0 ≤ o.nb_samples)
    (ha : 0 ≤ t.nb_samples - s.offset)
    (hlt : t.nb_samples - s.offset + o.nb_samples < cfg.target_frame_samples) :
    (takeCopy cfg s t o).frame = none := by
  simp only [takeCopy, hfl, min_def]
  split_ifs <;> first | rfl | (simp_all; try omega)

theorem takeCopy_emit (cfg : Config) (s : ResamplerState) (t o : Frame)
    (hnb : 0 ≤ o.nb_samples) (hoF : o.nb_samples < cfg.target_frame_samples)
    (hge : cfg.target_frame_samples ≤ t.nb_samples - s.offset + o.nb_samples) :
    takeCopy cfg s t o =
      ⟨1,
        { s with
            output_frame := some ⟨if o.nb_samples = 0 then t.pts + s.offset else o.pts, 0⟩
            out_writable := false
            offset := s.offset + (cfg.target_frame_samples - o.nb_samples)
            flush :=
              if t.nb_samples ≤ s.offset + (cfg.target_frame_samples - o.nb_samples) then false
              else s.flush },
        some ⟨if o.nb_samples = 0 then t.pts + s.offset else o.pts,
          cfg.target_frame_samples⟩⟩ := by
  simp only [takeCopy]
  have hcopy : min (t.nb_samples - s.offset) (cfg.target_frame_samples - o.nb_samples)
      = cfg.target_frame_samples - o.nb_samples := by omega
  rw [hcopy]
  have hpos : 0 < cfg.target_frame_samples - o.nb_samples := by omega
  rw [if_pos hpos, if_pos hpos]
  have hfull : o.nb_samples + (cfg.target_frame_samples - o.nb_samples)
      = cfg.target_frame_samples := by omega
  have hnotlt : ¬ (s.flush = false ∧
      o.nb_samples + (cfg.target_frame_samples - o.nb_samples)
        < cfg.target_frame_samples) := by
    rintro ⟨-, h⟩; omega
  rw [if_neg hnotlt, hfull]

/-- In fixed-frame-size mode, a take call on a state with a staging buffer
reduces to `takeCopy` applied to an accumulator holding exactly
`carryLen s` samples (a fresh empty accumulator whenever the stored one is
absent or not exclusively owned — in which case it was empty anyway). -/
theorem take_fixed_entry (cfg : Config) (s : ResamplerState) (r : TakeResp) (t : Frame)
    (hF : cfg.target_frame_samples ≠ 0) (ht : s.tmp_frame = some t)
    (halloc : s.output_frame = none ∨ (s.out_writable || r.out_dropped) = false →
      r.alloc_ok = true)
    (hw : s.out_writable = false → carryLen s = 0) :
    ∃ o : Frame, o.nb_samples = carryLen s ∧
      (o.nb_samples ≠ 0 → s.output_frame = some o) ∧
      take cfg s r =
        takeCopy cfg { s with out_writable := s.out_writable || r.out_dropped } t o := by
  simp only [take, ht]
  rw [if_neg hF]
  by_cases hna : s.output_frame = none ∨ (s.out_writable || r.out_dropped) = false
  · rw [if_pos hna, if_pos (halloc hna)]
    refine ⟨⟨noPts, 0⟩, ?_, fun h => absurd rfl h, rfl⟩
    rcases hna with hnone | hfalse
    · simp [carryLen, hnone]
    · rcases Bool.or_eq_false_iff.mp hfalse with ⟨hw1, -⟩
      exact (hw hw1).symm
  · rw [if_neg hna]
    push_neg at hna
    rcases ho : s.output_frame with _ | o
    · exact absurd ho hna.1
    · exact ⟨o, by simp [carryLen, ho], fun _ => rfl, rfl⟩

/-- Fixed-frame-size reframing, fully characterised: starting from a
state with staging buffer `t`, `a` unconsumed staged samples and `c`
accumulated samples (`c < F`), with the flush flag clear, a sequence of
take calls (all with a working allocator, long enough to drain) emits
exactly `(a + c) / F` frames, every one of length exactly `F`, and then
reports "no-output-yet". -/
theorem takeRun_fixed_count (cfg : Config) (hF : 0 < cfg.target_frame_samples) :
    ∀ (rs : List TakeResp) (s : ResamplerState) (t : Frame),
      s.tmp_frame = some t → s.flush = false →
      (∀ r ∈ rs, r.alloc_ok = true) →
      0 ≤ s.offset → s.offset ≤ t.nb_samples →
      0 ≤ carryLen s → carryLen s < cfg.target_frame_samples →
      (s.out_writable = false → carryLen s = 0) →
      (t.nb_samples - s.offset + carryLen s).toNat / cfg.target_frame_samples.toNat
        ≤ rs.length →
      (takeRun cfg s rs).length
          = (t.nb_samples - s.offset + carryLen s).toNat / cfg.target_frame_samples.toNat ∧
        ∀ f ∈ takeRun cfg s rs, f.nb_samples = cfg.target_frame_samples := by
  intro rs
  induction rs with
  | nil =>
      intro s t ht hfl _ h0 hle hc0 hcF hw hlen
      simp only [List.length_nil, Nat.le_zero] at hlen
      simp [takeRun, hlen]
  | cons r rs ih =>
      intro s t ht hfl hall h0 hle hc0 hcF hw hlen
      have hr : r.alloc_ok = true := hall r (by simp)
      obtain ⟨o, honb, -, hstep⟩ := take_fixed_entry cfg s r t (by omega) ht (fun _ => hr) hw
      by_cases hcase :
          t.nb_samples - s.offset + carryLen s < cfg.target_frame_samples
      · -- not enough samples for a full frame: the first take already stops
        have hnone : (take cfg s r).frame = none := by
          rw [hstep]
          apply takeCopy_no_emit
          · simp [hfl]
          · omega
          · simp only [ResamplerState.offset]; omega
          · simp only [ResamplerState.offset]; omega
        have hcount :
            (t.nb_samples - s.offset + carryLen s).toNat / cfg.target_frame_samples.toNat
              = 0 :=
          Nat.div_eq_of_lt (by omega)
        rw [hcount]
        simp only [takeRun]
        rw [hnone]
        simp
      · -- a full frame is emitted, then recurse
        push_neg at hcase
        have hemit := takeCopy_emit cfg
          { s with out_writable := s.out_writable || r.out_dropped } t o (by omega)
          (by omega) (by simp only [ResamplerState.offset]; omega)
        have htake : take cfg s r =
            ⟨1,
              { s with
                  output_frame :=
                    some ⟨if o.nb_samples = 0 then t.pts + s.offset else o.pts, 0⟩
                  out_writable := false
                  offset :=
                    s.offset + (cfg.target_frame_samples - o.nb_samples)
                  flush :=
                    if t.nb_samples ≤ s.offset + (cfg.target_frame_samples - o.nb_samples)
                    then false else s.flush },
              some ⟨if o.nb_samples = 0 then t.pts + s.offset else o.pts,
                cfg.target_frame_samples⟩⟩ := by
          rw [hstep, hemit]
        have hflush2 :
            (if t.nb_samples ≤ s.offset + (cfg.target_frame_samples - o.nb_samples)
             then false else s.flush) = false := by
          split_ifs <;> simp [hfl]
        set s2 : ResamplerState :=
          { s with
              output_frame := some ⟨if o.nb_samples = 0 then t.pts + s.offset else o.pts, 0⟩
              out_writable := false
              offset := s.offset + (cfg.target_frame_samples - o.nb_samples)
              flush :=
                if t.nb_samples ≤ s.offset + (cfg.target_frame_samples - o.nb_samples)
                then false else s.flush } with hs2
        have hrec := ih s2 t (by rw [hs2]; exact ht) (by rw [hs2]; exact hflush2)
          (fun x hx => hall x (by simp [hx])) (by rw [hs2]; simp; omega)
          (by rw [hs2]; simp; omega) (by rw [hs2]; simp [carryLen])
          (by rw [hs2]; simp [carryLen]; omega) (by rw [hs2]; simp [carryLen]) ?hlen2
        case hlen2 =>
          rw [hs2]
          simp only [carryLen]
          have harith :
              (t.nb_samples - (s.offset + (cfg.target_frame_samples - o.nb_samples)) + 0).toNat
                  + cfg.target_frame_samples.toNat
                = (t.nb_samples - s.offset + carryLen s).toNat := by
            omega
          have hdiv :
              (t.nb_samples - s.offset + carryLen s).toNat / cfg.target_frame_samples.toNat
                = (t.nb_samples - (s.offset + (cfg.target_frame_samples - o.nb_samples))
                    + 0).toNat / cfg.target_frame_samples.toNat + 1 := by
            rw [← harith, Nat.add_div_right]
            omega
          simp only [List.length_cons] at hlen
          omega
        have hdiv :
            (t.nb_samples - s.offset + carryLen s).toNat / cfg.target_frame_samples.toNat
              = ((t.nb_samples - (s.offset + (cfg.target_frame_samples - o.nb_samples))
                  + carryLen s2).toNat / cfg.target_frame_samples.toNat) + 1 := by
          have hcar2 : carryLen s2 = 0 := by rw [hs2]; simp [carryLen]
          rw [hcar2]
          have harith :
              (t.nb_samples - (s.offset + (cfg.target_frame_samples - o.nb_samples)) + 0).toNat
                  + cfg.target_frame_samples.toNat
                = (t.nb_samples - s.offset + carryLen s).toNat := by
            omega
          rw [← harith, Nat.add_div_right]
          omega
        constructor
        · simp only [takeRun]
          rw [htake]
          simp only [List.length_cons]
          rw [hdiv]
          have := hrec.1
          simp only [hs2] at this ⊢
          omega
        · intro f hf
          simp only [takeRun] at hf
          rw [htake] at hf
          simp only [List.mem_cons] at hf
          rcases hf with hf | hf
          · rw [hf]
          · exact hrec.2 f (by simpa [hs2] using hf)

/-- C2: in fixed-frame-size mode (`target_frame_samples = F > 0`), from any
state whose staging buffer holds `a` unconsumed samples with
`k*F ≤ a < (k+1)*F` (input pushed up to just beyond `k*F` samples), the
accumulator being empty and no flush pending, `k ≥ 1` repeated take calls
produce exactly `k` frames, each of length exactly `F`, after which take
reports "no-output-yet" — no frame of any other length appears
(lines 245-307 of `resampler.c`). -/
theorem fixed_framing_exact (cfg : Config) (s : ResamplerState) (t : Frame)
    (rs : List TakeResp) (n : Nat)
    (hF : 0 < cfg.target_frame_samples)
    (ht : s.tmp_frame = some t) (hfl : s.flush = false)
    (hout : s.output_frame = none)
    (hall : ∀ r ∈ rs, r.alloc_ok = true)
    (h0 : 0 ≤ s.offset) (hle : s.offset ≤ t.nb_samples)
    (hn : 1 ≤ n)
    (hlo : (n : Int) * cfg.target_frame_samples ≤ t.nb_samples - s.offset)
    (hhi : t.nb_samples - s.offset < ((n : Int) + 1) * cfg.target_frame_samples)
    (hrs : n ≤ rs.length) :
    (takeRun cfg s rs).length = n ∧
      ∀ f ∈ takeRun cfg s rs, f.nb_samples = cfg.target_frame_samples := by
  have hcar : carryLen s = 0 := by simp [carryLen, hout]
  obtain ⟨Fn, hFn⟩ : ∃ Fn : Nat, cfg.target_frame_samples = (Fn : Int) :=
    ⟨cfg.target_frame_samples.toNat, (Int.toNat_of_nonneg (by omega)).symm⟩
  obtain ⟨An, hAn⟩ : ∃ An : Nat, t.nb_samples - s.offset = (An : Int) :=
    ⟨(t.nb_samples - s.offset).toNat,
      (Int.toNat_of_nonneg (by nlinarith [hlo, hF, hn])).symm⟩
  have hlo2 : n * Fn ≤ An := by
    rw [hFn, hAn] at hlo
    exact_mod_cast hlo
  have hhi2 : An < (n + 1) * Fn := by
    rw [hFn, hAn] at hhi
    exact_mod_cast hhi
  have hdiv : (t.nb_samples - s.offset + carryLen s).toNat
      / cfg.target_frame_samples.toNat = n := by
    rw [hcar, add_zero, hAn, hFn, Int.toNat_natCast, Int.toNat_natCast]
    exact Nat.div_eq_of_lt_le hlo2 hhi2
  have h := takeRun_fixed_count cfg hF rs s t ht hfl hall h0 hle
    (by omega) (by omega) (fun _ => hcar) (by rw [hdiv]; exact hrs)
  exact ⟨by rw [h.1, hdiv], h.2⟩

theorem fixed_framing_exact_witness :
    (⟨1, 1, 2⟩ : Config).target_frame_samples = 2 ∧
      (⟨some ⟨0, 5⟩, 8, true, none, true, 5, 5, 5, 0, 0, 0, false⟩
          : ResamplerState).tmp_frame = some ⟨0, 5⟩ ∧
      (2 : Int) * 2 ≤ (5 : Int) - 0 ∧ (5 : Int) - 0 < ((2 : Int) + 1) * 2 ∧
      (takeRun ⟨1, 1, 2⟩ ⟨some ⟨0, 5⟩, 8, true, none, true, 5, 5, 5, 0, 0, 0, false⟩
          [⟨false, true⟩, ⟨false, true⟩, ⟨false, true⟩]).length = 2 ∧
      ∀ f ∈ takeRun ⟨1, 1, 2⟩ ⟨some ⟨0, 5⟩, 8, true, none, true, 5, 5, 5, 0, 0, 0, false⟩
          [⟨false, true⟩, ⟨false, true⟩, ⟨false, true⟩],
        f.nb_samples = (⟨1, 1, 2⟩ : Config).target_frame_samples := by
  have h := fixed_framing_exact ⟨1, 1, 2⟩
    ⟨some ⟨0, 5⟩, 8, true, none, true, 5, 5, 5, 0, 0, 0, false⟩ ⟨0, 5⟩
    [⟨false, true⟩, ⟨false, true⟩, ⟨false, true⟩] 2 (by decide) rfl rfl rfl
    (by decide) (by decide) (by decide) (by decide) (by decide) (by decide) (by decide)
  exact ⟨rfl, rfl, by decide, by decide, h.1, h.2⟩

theorem push_error_propagation_witness :
    pendingOutput initState = false ∧
      (⟨0, 0, -9, 0, false, true, 0, 0⟩ : KernelResp).out_samples_ret < 0 ∧
      push cfgUnit initState (some ⟨10, 5⟩) ⟨0, 0, -9, 0, false, true, 0, 0⟩ =
        ⟨(⟨0, 0, -9, 0, false, true, 0, 0⟩ : KernelResp).out_samples_ret,
          driftUpdate (initPts cfgUnit initState (10 : Int)) (5 : Int)
            (pushDelta cfgUnit initState ⟨10, 5⟩),
          driftCalls cfgUnit initState ⟨10, 5⟩ ++ [KernelCall.getOutSamples (5 : Int)]⟩ :=
  ⟨rfl, by decide,
    (push_error_propagation cfgUnit initState ⟨10, 5⟩ ⟨0, 0, -9, 0, false, true, 0, 0⟩ rfl
      (fun _ => by decide) (fun _ => by decide)).1 (by decide)⟩

/-! Invariant machinery for the timestamp-chain theorem. -/

theorem inv_initState (cfg : Config) : Inv cfg initState := by
  refine ⟨?_, ?_, ?_, ?_, ?_, ?_, ?_, ?_, ?_, ?_, ?_, ?_, ?_⟩ <;>
    simp [initState, posOut, stagedLen, carryLen, nextPts]

/-- When the push gate is open, nothing is staged. -/
theorem stagedLen_gate (cfg : Config) (s : ResamplerState) (hInv : Inv cfg s)
    (hg : pendingOutput s = false) : stagedLen s = 0 := by
  rcases ht : s.tmp_frame with _ | t
  · simp [stagedLen, ht]
  · have h1 := hInv.offset_le t ht
    have h2 : ¬ s.offset < t.nb_samples := by
      simpa [pendingOutput, ht] using hg
    simp only [stagedLen, ht]
    omega

/-- A push never decreases the cumulative output-sample counter. -/
theorem push_os_mono (cfg : Config) (s : ResamplerState) (frame : Option Frame)
    (k : KernelResp) : s.output_samples ≤ (push cfg s frame k).state.output_samples := by
  have hinit : ∀ pts, (initPts cfg s pts).output_samples = s.output_samples := by
    intro pts; unfold initPts; split_ifs <;> rfl
  have hconv : ∀ (s1 : ResamplerState) fr required calls,
      s1.output_samples ≤ (convertStage s1 fr k required calls).state.output_samples := by
    intro s1 fr required calls
    unfold convertStage
    split_ifs <;> simp <;> omega
  by_cases hg : pendingOutput s
  · unfold push; rw [hg]; simp
  · rw [Bool.not_eq_true] at hg
    rcases frame with _ | f
    · rw [push_flush hg]
      exact hconv { s with flush := true } none (k.delay_ret + 3) _
    · unfold push
      rw [hg]
      simp only [Bool.false_eq_true, if_false]
      have hd : ∀ delta,
          (driftUpdate (initPts cfg s f.pts) f.nb_samples delta).output_samples
            = s.output_samples := by
        intro delta; simp [driftUpdate, hinit]
      split_ifs <;>
        first
          | (simp [hinit]; done)
          | exact le_trans (le_of_eq (hd _).symm) (hconv _ _ _ _)

/-- Invariant transfer to a state in which only `output_frame`,
`out_writable`, `offset` and `flush` changed (the fields a fixed-size
`takeCopy` can touch): the staging- and counter-related clauses carry
over, only the clauses about the changed fields need proof. -/
theorem inv_update (cfg : Config) (s : ResamplerState) (hInv : Inv cfg s)
    (hF : cfg.target_frame_samples ≠ 0)
    (no : Option Frame) (nw : Bool) (noff : Int) (nfl : Bool)
    (h0 : 0 ≤ noff)
    (hle : ∀ t, s.tmp_frame = some t → noff ≤ t.nb_samples)
    (hbud :
      stagedLen { s with output_frame := no, out_writable := nw, offset := noff, flush := nfl }
          + carryLen
              { s with output_frame := no, out_writable := nw, offset := noff, flush := nfl }
        ≤ s.output_samples)
    (honn : ∀ o, no = some o → 0 ≤ o.nb_samples)
    (holt : ∀ o, no = some o → o.nb_samples ≠ 0 →
      o.nb_samples < cfg.target_frame_samples)
    (host : ∀ o, no = some o → o.nb_samples ≠ 0 →
      o.pts = nextPts
        { s with output_frame := no, out_writable := nw, offset := noff, flush := nfl })
    (hw : nw = false → ∀ o, no = some o → o.nb_samples = 0) :
    Inv cfg { s with output_frame := no, out_writable := nw, offset := noff, flush := nfl } := by
  refine ⟨h0, hle, hInv.tmp_nb_nonneg, hInv.tmp_stamp, hInv.tmp_le_os, hInv.os_nonneg,
    hbud, honn, holt, host, ?_, fun hF0 => absurd hF0 hF, fun hF0 => absurd hF0 hF⟩
  intro hnw
  rcases hno : no with _ | o
  · simp [carryLen, hno]
  · simp [carryLen, hno, hw hnw o hno]

/-- One fixed-size `takeCopy` step preserves the invariant, keeps the
output counter, and emits frames exactly at `nextPts`. -/
theorem takeCopy_step (cfg : Config) (s : ResamplerState) (t o : Frame)
    (hF : cfg.target_frame_samples ≠ 0)
    (ht : s.tmp_frame = some t)
    (hInv : Inv cfg s)
    (honb : o.nb_samples = carryLen s)
    (hopts : o.nb_samples ≠ 0 → o.pts = nextPts s)
    (holt : o.nb_samples ≠ 0 → o.nb_samples < cfg.target_frame_samples)
    (honn : 0 ≤ o.nb_samples) :
    Inv cfg (takeCopy cfg s t o).state ∧
      (takeCopy cfg s t o).state.output_samples = s.output_samples ∧
      ((takeCopy cfg s t o).frame = none →
        nextPts (takeCopy cfg s t o).state = nextPts s) ∧
      (∀ f, (takeCopy cfg s t o).frame = some f →
        0 ≤ f.nb_samples ∧
        (f.nb_samples = 0 → nextPts (takeCopy cfg s t o).state = nextPts s) ∧
        (f.nb_samples ≠ 0 → f.pts = nextPts s ∧
          nextPts (takeCopy cfg s t o).state = f.pts + f.nb_samples ∧
          0 < s.output_samples)) := by
  have h0 : 0 ≤ s.offset := hInv.offset_nonneg
  have hle : s.offset ≤ t.nb_samples := hInv.offset_le t ht
  have hstamp : t.nb_samples ≠ 0 → posOut s = t.pts + t.nb_samples := hInv.tmp_stamp t ht
  have hosn : 0 ≤ s.output_samples := hInv.os_nonneg
  have hstaged : stagedLen s = t.nb_samples - s.offset := by simp [stagedLen, ht]
  have hnp : nextPts s = s.output_samples + s.output_pts_offset
      - (t.nb_samples - s.offset) - o.nb_samples := by
    simp [nextPts, posOut, hstaged, ← honb]
  have hbud2 : (t.nb_samples - s.offset) + o.nb_samples ≤ s.output_samples := by
    have h := hInv.budget
    rw [hstaged, ← honb] at h
    exact h
  have hm1 : (t.nb_samples - s.offset) ⊓ (cfg.target_frame_samples - o.nb_samples)
      ≤ t.nb_samples - s.offset := inf_le_left
  have hm2 : (t.nb_samples - s.offset) ⊓ (cfg.target_frame_samples - o.nb_samples)
      ≤ cfg.target_frame_samples - o.nb_samples := inf_le_right
  simp only [takeCopy]
  split_ifs with h1 h2 h3 h4 h5 h6 h7 h8
  -- G1: copy > 0, first copy into empty accumulator, frame not full
  · have hst := hstamp (by omega)
    simp only [posOut] at hst
    have hlt : o.nb_samples +
        (t.nb_samples - s.offset) ⊓ (cfg.target_frame_samples - o.nb_samples)
          < cfg.target_frame_samples := h3.2
    refine ⟨?_, rfl, ?_, ?_⟩
    · refine inv_update cfg s hInv hF _ _ _ _ (by omega) ?_ ?_ ?_ ?_ ?_ ?_
      · intro t' ht'
        rw [ht] at ht'
        simp only [Option.some.injEq] at ht'
        subst ht'
        omega
      · simp [stagedLen, carryLen, ht]
        omega
      · intro o' ho'
        simp only [Option.some.injEq] at ho'
        subst ho'
        simp only [Frame.nb_samples]
        omega
      · intro o' ho' hnb
        simp only [Option.some.injEq] at ho'
        subst ho'
        exact hlt
      · intro o' ho' hnb
        simp only [Option.some.injEq] at ho'
        subst ho'
        simp [nextPts, posOut, stagedLen, carryLen, ht]
        omega
      · intro hfalse
        simp at hfalse
    · intro _
      rw [hnp]
      simp [nextPts, posOut, stagedLen, carryLen, ht]
      try omega
    · intro f hf
      simp at hf
  -- G2/G3: copy > 0, first copy into empty accumulator, frame full: emit
  · have hst := hstamp (by omega)
    simp only [posOut] at hst
    refine ⟨?_, rfl, ?_, ?_⟩
    · refine inv_update cfg s hInv hF _ _ _ _ (by omega) ?_ ?_ ?_ ?_ ?_ ?_
      · intro t' ht'
        rw [ht] at ht'
        simp only [Option.some.injEq] at ht'
        subst ht'
        omega
      · simp [stagedLen, carryLen, ht]
        omega
      · intro o' ho'
        simp only [Option.some.injEq] at ho'
        subst ho'
        simp
      · intro o' ho' hnb
        simp only [Option.some.injEq] at ho'
        subst ho'
        simp at hnb
      · intro o' ho' hnb
        simp only [Option.some.injEq] at ho'
        subst ho'
        simp at hnb
      · intro _ o' ho'
        simp only [Option.some.injEq] at ho'
        subst ho'
        rfl
    · intro hfr
      simp at hfr
    · intro f hf
      simp only [Option.some.injEq] at hf
      subst hf
      refine ⟨by simp; omega, ?_, ?_⟩
      · intro hz
        simp at hz
        omega
      · intro _
        refine ⟨by simp; rw [hnp]; omega, ?_, by omega⟩
        simp [nextPts, posOut, stagedLen, carryLen, ht]
        omega
  · have hst := hstamp (by omega)
    simp only [posOut] at hst
    refine ⟨?_, rfl, ?_, ?_⟩
    · refine inv_update cfg s hInv hF _ _ _ _ (by omega) ?_ ?_ ?_ ?_ ?_ ?_
      · intro t' ht'
        rw [ht] at ht'
        simp only [Option.some.injEq] at ht'
        subst ht'
        omega
      · simp [stagedLen, carryLen, ht]
        omega
      · intro o' ho'
        simp only [Option.some.injEq] at ho'
        subst ho'
        simp
      · intro o' ho' hnb
        simp only [Option.some.injEq] at ho'
        subst ho'
        simp at hnb
      · intro o' ho' hnb
        simp only [Option.some.injEq] at ho'
        subst ho'
        simp at hnb
      · intro _ o' ho'
        simp only [Option.some.injEq] at ho'
        subst ho'
        rfl
    · intro hfr
      simp at hfr
    · intro f hf
      simp only [Option.some.injEq] at hf
      subst hf
      refine ⟨by simp; omega, ?_, ?_⟩
      · intro hz
        simp at hz
        omega
      · intro _
        refine ⟨by simp; rw [hnp]; omega, ?_, by omega⟩
        simp [nextPts, posOut, stagedLen, carryLen, ht]
        omega
  -- G4: copy > 0 into a non-empty accumulator, frame not full
  · have hst := hstamp (by omega)
    simp only [posOut] at hst
    have hop := hopts h2
    rw [hnp] at hop
    have hlt : o.nb_samples +
        (t.nb_samples - s.offset) ⊓ (cfg.target_frame_samples - o.nb_samples)
          < cfg.target_frame_samples := h5.2
    refine ⟨?_, rfl, ?_, ?_⟩
    · refine inv_update cfg s hInv hF _ _ _ _ (by omega) ?_ ?_ ?_ ?_ ?_ ?_
      · intro t' ht'
        rw [ht] at ht'
        simp only [Option.some.injEq] at ht'
        subst ht'
        omega
      · simp [stagedLen, carryLen, ht]
        omega
      · intro o' ho'
        simp only [Option.some.injEq] at ho'
        subst ho'
        simp only [Frame.nb_samples]
        omega
      · intro o' ho' hnb
        simp only [Option.some.injEq] at ho'
        subst ho'
        exact hlt
      · intro o' ho' hnb
        simp only [Option.some.injEq] at ho'
        subst ho'
        simp [nextPts, posOut, stagedLen, carryLen, ht]
        omega
      · intro hfalse
        simp at hfalse
    · intro _
      rw [hnp]
      simp [nextPts, posOut, stagedLen, carryLen, ht]
      try omega
    · intro f hf
      simp at hf
  -- G5/G6: copy > 0 into a non-empty accumulator, frame full: emit
  · have hst := hstamp (by omega)
    simp only [posOut] at hst
    have hop := hopts h2
    rw [hnp] at hop
    refine ⟨?_, rfl, ?_, ?_⟩
    · refine inv_update cfg s hInv hF _ _ _ _ (by omega) ?_ ?_ ?_ ?_ ?_ ?_
      · intro t' ht'
        rw [ht] at ht'
        simp only [Option.some.injEq] at ht'
        subst ht'
        omega
      · simp [stagedLen, carryLen, ht]
        omega
      · intro o' ho'
        simp only [Option.some.injEq] at ho'
        subst ho'
        simp
      · intro o' ho' hnb
        simp only [Option.some.injEq] at ho'
        subst ho'
        simp at hnb
      · intro o' ho' hnb
        simp only [Option.some.injEq] at ho'
        subst ho'
        simp at hnb
      · intro _ o' ho'
        simp only [Option.some.injEq] at ho'
        subst ho'
        rfl
    · intro hfr
      simp at hfr
    · intro f hf
      simp only [Option.some.injEq] at hf
      subst hf
      refine ⟨by simp; omega, ?_, ?_⟩
      · intro hz
        simp at hz
        omega
      · intro _
        refine ⟨by simp; rw [hnp]; omega, ?_, by omega⟩
        simp [nextPts, posOut, stagedLen, carryLen, ht]
        omega
  · have hst := hstamp (by omega)
    simp only [posOut] at hst
    have hop := hopts h2
    rw [hnp] at hop
    refine ⟨?_, rfl, ?_, ?_⟩
    · refine inv_update cfg s hInv hF _ _ _ _ (by omega) ?_ ?_ ?_ ?_ ?_ ?_
      · intro t' ht'
        rw [ht] at ht'
        simp only [Option.some.injEq] at ht'
        subst ht'
        omega
      · simp [stagedLen, carryLen, ht]
        omega
      · intro o' ho'
        simp only [Option.some.injEq] at ho'
        subst ho'
        simp
      · intro o' ho' hnb
        simp only [Option.some.injEq] at ho'
        subst ho'
        simp at hnb
      · intro o' ho' hnb
        simp only [Option.some.injEq] at ho'
        subst ho'
        simp at hnb
      · intro _ o' ho'
        simp only [Option.some.injEq] at ho'
        subst ho'
        rfl
    · intro hfr
      simp at hfr
    · intro f hf
      simp only [Option.some.injEq] at hf
      subst hf
      refine ⟨by simp; omega, ?_, ?_⟩
      · intro hz
        simp at hz
        omega
      · intro _
        refine ⟨by simp; rw [hnp]; omega, ?_, by omega⟩
        simp [nextPts, posOut, stagedLen, carryLen, ht]
        omega
  -- G7: no copy, frame not full: no emission, accumulator re-stored
  · have hlt : o.nb_samples < cfg.target_frame_samples := h7.2
    refine ⟨?_, rfl, ?_, ?_⟩
    · refine inv_update cfg s hInv hF _ _ _ _ (by omega) ?_ ?_ ?_ ?_ ?_ ?_
      · intro t' ht'
        rw [ht] at ht'
        simp only [Option.some.injEq] at ht'
        subst ht'
        omega
      · simp [stagedLen, carryLen, ht]
        omega
      · intro o' ho'
        simp only [Option.some.injEq] at ho'
        subst ho'
        omega
      · intro o' ho' hnb
        simp only [Option.some.injEq] at ho'
        subst ho'
        exact hlt
      · intro o' ho' hnb
        simp only [Option.some.injEq] at ho'
        subst ho'
        have hop := hopts hnb
        rw [hnp] at hop
        simp [nextPts, posOut, stagedLen, carryLen, ht]
        omega
      · intro hfalse
        simp at hfalse
    · intro _
      rw [hnp]
      simp [nextPts, posOut, stagedLen, carryLen, ht]
      try omega
    · intro f hf
      simp at hf
  -- G8/G9: no copy but emission forced (flushing): accumulator emitted as-is
  · refine ⟨?_, rfl, ?_, ?_⟩
    · refine inv_update cfg s hInv hF _ _ _ _ (by omega) ?_ ?_ ?_ ?_ ?_ ?_
      · intro t' ht'
        rw [ht] at ht'
        simp only [Option.some.injEq] at ht'
        subst ht'
        omega
      · simp [stagedLen, carryLen, ht]
        omega
      · intro o' ho'
        simp only [Option.some.injEq] at ho'
        subst ho'
        simp
      · intro o' ho' hnb
        simp only [Option.some.injEq] at ho'
        subst ho'
        simp at hnb
      · intro o' ho' hnb
        simp only [Option.some.injEq] at ho'
        subst ho'
        simp at hnb
      · intro _ o' ho'
        simp only [Option.some.injEq] at ho'
        subst ho'
        rfl
    · intro hfr
      simp at hfr
    · intro f hf
      simp only [Option.some.injEq] at hf
      subst hf
      refine ⟨honn, ?_, ?_⟩
      · intro hz
        rw [hnp]
        simp [nextPts, posOut, stagedLen, carryLen, ht]
        try omega
      · intro hnb
        have hop := hopts hnb
        refine ⟨hop, ?_, by omega⟩
        rw [hnp] at hop
        rw [hop]
        simp [nextPts, posOut, stagedLen, carryLen, ht]
        try omega
  · refine ⟨?_, rfl, ?_, ?_⟩
    · refine inv_update cfg s hInv hF _ _ _ _ (by omega) ?_ ?_ ?_ ?_ ?_ ?_
      · intro t' ht'
        rw [ht] at ht'
        simp only [Option.some.injEq] at ht'
        subst ht'
        omega
      · simp [stagedLen, carryLen, ht]
        omega
      · intro o' ho'
        simp only [Option.some.injEq] at ho'
        subst ho'
        simp
      · intro o' ho' hnb
        simp only [Option.some.injEq] at ho'
        subst ho'
        simp at hnb
      · intro o' ho' hnb
        simp only [Option.some.injEq] at ho'
        subst ho'
        simp at hnb
      · intro _ o' ho'
        simp only [Option.some.injEq] at ho'
        subst ho'
        rfl
    · intro hfr
      simp at hfr
    · intro f hf
      simp only [Option.some.injEq] at hf
      subst hf
      refine ⟨honn, ?_, ?_⟩
      · intro hz
        rw [hnp]
        simp [nextPts, posOut, stagedLen, carryLen, ht]
        try omega
      · intro hnb
        have hop := hopts hnb
        refine ⟨hop, ?_, by omega⟩
        rw [hnp] at hop
        rw [hop]
        simp [nextPts, posOut, stagedLen, carryLen, ht]
        try omega

theorem carryLen_nonneg (cfg : Config) (s : ResamplerState) (hInv : Inv cfg s) :
    0 ≤ carryLen s := by
  rcases ho : s.output_frame with _ | o
  · simp [carryLen, ho]
  · simpa [carryLen, ho] using hInv.out_nonneg o ho

/-- One `take` call preserves the invariant and the output counter, and
emits frames exactly at `nextPts`: a non-empty emitted frame carries the
pts `nextPts` and advances it by its length; an empty frame (or no frame)
leaves `nextPts` unchanged. -/
theorem take_step (cfg : Config) (s : ResamplerState) (r : TakeResp) (hInv : Inv cfg s) :
    Inv cfg (take cfg s r).state ∧
      (take cfg s r).state.output_samples = s.output_samples ∧
      ((take cfg s r).frame = none → nextPts (take cfg s r).state = nextPts s) ∧
      (∀ f, (take cfg s r).frame = some f →
        0 ≤ f.nb_samples ∧
        (f.nb_samples = 0 → nextPts (take cfg s r).state = nextPts s) ∧
        (f.nb_samples ≠ 0 → f.pts = nextPts s ∧
          nextPts (take cfg s r).state = f.pts + f.nb_samples ∧
          0 < s.output_samples)) := by
  rcases ht : s.tmp_frame with _ | t
  · have hres : take cfg s r = ⟨0, s, none⟩ := by
      simp [take, ht]
    rw [hres]
    exact ⟨hInv, rfl, fun _ => rfl, fun f hf => by simp at hf⟩
  by_cases hF : cfg.target_frame_samples = 0
  · -- passthrough mode
    have hpo : s.offset = 0 := hInv.pass_offset hF
    have hpout : s.output_frame = none := hInv.pass_out hF
    have hcar : carryLen s = 0 := by simp [carryLen, hpout]
    by_cases hnb : 0 < t.nb_samples
    · have hres : take cfg s r =
          ⟨1, { s with
                  flush := false
                  tmp_frame := some ⟨t.pts, 0⟩
                  tmp_writable := false }, some t⟩ := by
        simp only [take, ht]
        rw [if_pos hF, if_pos hnb]
      rw [hres]
      have hst := hInv.tmp_stamp t ht (by omega)
      simp only [posOut] at hst
      have htos := hInv.tmp_le_os t ht
      refine ⟨⟨?_, ?_, ?_, ?_, ?_, ?_, ?_, ?_, ?_, ?_, ?_, ?_, ?_⟩, rfl, ?_, ?_⟩
      · exact hInv.offset_nonneg
      · intro t' ht'
        simp only [Option.some.injEq] at ht'
        subst ht'
        simp only [Frame.nb_samples]
        omega
      · intro t' ht'
        simp only [Option.some.injEq] at ht'
        subst ht'
        simp
      · intro t' ht' hnz
        simp only [Option.some.injEq] at ht'
        subst ht'
        simp at hnz
      · intro t' ht'
        simp only [Option.some.injEq] at ht'
        subst ht'
        simpa using hInv.os_nonneg
      · exact hInv.os_nonneg
      · have := hInv.os_nonneg
        simp [stagedLen, carryLen, hpout, hpo]
        omega
      · intro o' ho'
        rw [hpout] at ho'
        simp at ho'
      · intro o' ho'
        rw [hpout] at ho'
        simp at ho'
      · intro o' ho'
        rw [hpout] at ho'
        simp at ho'
      · intro _
        simp [carryLen, hpout]
      · intro _
        exact hpo
      · intro _
        exact hpout
      · intro hfr
        simp at hfr
      · intro f hf
        simp only [Option.some.injEq] at hf
        subst hf
        refine ⟨by omega, by omega, ?_⟩
        intro _
        have hnps : nextPts s = t.pts := by
          simp [nextPts, posOut, stagedLen, carryLen, ht, hpout, hpo]
          omega
        refine ⟨hnps.symm, ?_, by omega⟩
        simp [nextPts, posOut, stagedLen, carryLen, hpout, hpo]
        omega
    · have hres : take cfg s r = ⟨0, { s with flush := false }, none⟩ := by
        simp only [take, ht]
        rw [if_pos hF, if_neg hnb]
      rw [hres]
      refine ⟨⟨hInv.offset_nonneg, hInv.offset_le, hInv.tmp_nb_nonneg, hInv.tmp_stamp,
        hInv.tmp_le_os, hInv.os_nonneg, hInv.budget, hInv.out_nonneg, hInv.out_lt,
        hInv.out_stamp, hInv.out_writ, hInv.pass_offset, hInv.pass_out⟩,
        rfl, fun _ => rfl, ?_⟩
      intro f hf
      simp at hf
  · -- fixed-frame-size mode
    by_cases hna : s.output_frame = none ∨ (s.out_writable || r.out_dropped) = false
    · by_cases hal : r.alloc_ok = true
      · obtain ⟨o, honb, hsome, hstep⟩ :=
          take_fixed_entry cfg s r t hF ht (fun _ => hal) hInv.out_writ
        rw [hstep]
        have hInv2 : Inv cfg { s with out_writable := s.out_writable || r.out_dropped } := by
          refine ⟨hInv.offset_nonneg, hInv.offset_le, hInv.tmp_nb_nonneg, hInv.tmp_stamp,
            hInv.tmp_le_os, hInv.os_nonneg, hInv.budget, hInv.out_nonneg, hInv.out_lt,
            hInv.out_stamp, ?_, hInv.pass_offset, hInv.pass_out⟩
          intro hw
          rcases Bool.or_eq_false_iff.mp hw with ⟨hw1, -⟩
          exact hInv.out_writ hw1
        exact takeCopy_step cfg { s with out_writable := s.out_writable || r.out_dropped }
          t o hF ht hInv2 honb
          (fun hnz => hInv.out_stamp o (hsome hnz) hnz)
          (fun hnz => hInv.out_lt o (hsome hnz) hnz)
          (by rw [honb]; exact carryLen_nonneg cfg s hInv)
      · rw [Bool.not_eq_true] at hal
        have hcar : carryLen s = 0 := by
          rcases hna with hnone | hfalse
          · simp [carryLen, hnone]
          · rcases Bool.or_eq_false_iff.mp hfalse with ⟨hw1, -⟩
            exact hInv.out_writ hw1
        have hres : take cfg s r =
            ⟨-1,
              { s with
                  output_frame := none
                  out_writable := s.out_writable || r.out_dropped },
              none⟩ := by
          simp only [take, ht]
          rw [if_neg hF, if_pos hna, if_neg (by simp [hal])]
        rw [hres]
        refine ⟨?_, rfl, ?_, ?_⟩
        · refine inv_update cfg s hInv hF none
            (s.out_writable || r.out_dropped) s.offset s.flush hInv.offset_nonneg
            hInv.offset_le ?_ (fun o ho => by cases ho) (fun o ho => by cases ho)
            (fun o ho => by cases ho) (fun _ o ho => by cases ho)
          have hbd := hInv.budget
          have hc0 := carryLen_nonneg cfg s hInv
          simp only [stagedLen, carryLen] at hbd hc0 ⊢
          omega
        · intro _
          have hcar2 : carryLen s = 0 := hcar
          simp only [nextPts, posOut, stagedLen, carryLen] at hcar2 ⊢
          omega
        · intro f hf
          simp at hf
    · obtain ⟨o, honb, hsome, hstep⟩ :=
        take_fixed_entry cfg s r t hF ht (fun h => absurd h hna) hInv.out_writ
      rw [hstep]
      have hInv2 : Inv cfg { s with out_writable := s.out_writable || r.out_dropped } := by
        refine ⟨hInv.offset_nonneg, hInv.offset_le, hInv.tmp_nb_nonneg, hInv.tmp_stamp,
          hInv.tmp_le_os, hInv.os_nonneg, hInv.budget, hInv.out_nonneg, hInv.out_lt,
          hInv.out_stamp, ?_, hInv.pass_offset, hInv.pass_out⟩
        intro hw
        rcases Bool.or_eq_false_iff.mp hw with ⟨hw1, -⟩
        exact hInv.out_writ hw1
      exact takeCopy_step cfg { s with out_writable := s.out_writable || r.out_dropped }
        t o hF ht hInv2 honb
        (fun hnz => hInv.out_stamp o (hsome hnz) hnz)
        (fun hnz => hInv.out_lt o (hsome hnz) hnz)
        (by rw [honb]; exact carryLen_nonneg cfg s hInv)

/-- The conversion stage, entered with an empty staging buffer (the gate
guarantees this), preserves the invariant and `nextPts` on every path —
capacity failure, allocation failure, conversion failure or success. -/
theorem convertStage_step (cfg : Config) (s1 : ResamplerState) (fr : Option Frame)
    (k : KernelResp) (required : Int) (calls : List KernelCall)
    (hInv : Inv cfg s1) (hstg : stagedLen s1 = 0) :
    Inv cfg (convertStage s1 fr k required calls).state ∧
      nextPts (convertStage s1 fr k required calls).state = nextPts s1 := by
  have hcar0 := carryLen_nonneg cfg s1 hInv
  have hbud := hInv.budget
  have hosn := hInv.os_nonneg
  have hprod : (0 : Int) ≤ (k.produced : Int) := Int.ofNat_nonneg _
  simp only [convertStage]
  split_ifs with hreq hna hal hcv hcv2
  · exact ⟨hInv, rfl⟩
  · -- allocation succeeded, conversion failed
    constructor
    · refine ⟨le_refl 0, ?_, ?_, ?_, ?_, hInv.os_nonneg, ?_, hInv.out_nonneg, hInv.out_lt,
        ?_, ?_, ?_, hInv.pass_out⟩
      · intro t' ht'
        simp only [Option.some.injEq] at ht'
        subst ht'
        simp
      · intro t' ht'
        simp only [Option.some.injEq] at ht'
        subst ht'
        simp
      · intro t' ht' hnz
        simp only [Option.some.injEq] at ht'
        subst ht'
        simp at hnz
      · intro t' ht'
        simp only [Option.some.injEq] at ht'
        subst ht'
        simpa using hInv.os_nonneg
      · simp only [stagedLen, carryLen] at hbud hstg ⊢
        omega
      · intro o' ho' hnz
        have := hInv.out_stamp o' ho' hnz
        rw [this]
        simp only [nextPts, posOut, stagedLen, carryLen] at hstg ⊢
        omega
      · intro hw
        have := hInv.out_writ hw
        simpa [carryLen] using this
      · intro _
        rfl
    · simp only [nextPts, posOut, stagedLen, carryLen] at hstg ⊢
      omega
  · -- allocation succeeded, conversion succeeded
    constructor
    · refine ⟨le_refl 0, ?_, ?_, ?_, ?_, by simp; omega, ?_, hInv.out_nonneg, hInv.out_lt,
        ?_, ?_, ?_, hInv.pass_out⟩
      · intro t' ht'
        simp only [Option.some.injEq] at ht'
        subst ht'
        simpa using hprod
      · intro t' ht'
        simp only [Option.some.injEq] at ht'
        subst ht'
        simpa using hprod
      · intro t' ht' hnz
        simp only [Option.some.injEq] at ht'
        subst ht'
        simp [posOut]
        omega
      · intro t' ht'
        simp only [Option.some.injEq] at ht'
        subst ht'
        simp
        omega
      · simp only [stagedLen, carryLen] at hbud hstg ⊢
        simp
        omega
      · intro o' ho' hnz
        have := hInv.out_stamp o' ho' hnz
        rw [this]
        simp only [nextPts, posOut, stagedLen, carryLen] at hstg ⊢
        simp
        omega
      · intro hw
        have := hInv.out_writ hw
        simpa [carryLen] using this
      · intro _
        rfl
    · simp [nextPts, posOut, stagedLen, carryLen] at hstg ⊢
      try omega
  · -- allocation failed
    constructor
    · refine ⟨hInv.offset_nonneg, ?_, ?_, ?_, ?_, hInv.os_nonneg, ?_, hInv.out_nonneg,
        hInv.out_lt, ?_, ?_, hInv.pass_offset, hInv.pass_out⟩
      · intro t' ht'
        simp at ht'
      · intro t' ht'
        simp at ht'
      · intro t' ht'
        simp at ht'
      · intro t' ht'
        simp at ht'
      · simp only [stagedLen, carryLen] at hbud hstg ⊢
        omega
      · intro o' ho' hnz
        have := hInv.out_stamp o' ho' hnz
        rw [this]
        simp only [nextPts, posOut, stagedLen, carryLen] at hstg ⊢
        omega
      · intro hw
        have := hInv.out_writ hw
        simpa [carryLen] using this
    · simp only [nextPts, posOut, stagedLen, carryLen] at hstg ⊢
      omega
  · -- no allocation needed, conversion failed
    constructor
    · refine ⟨le_refl 0, ?_, ?_, ?_, ?_, hInv.os_nonneg, ?_, hInv.out_nonneg, hInv.out_lt,
        ?_, ?_, ?_, hInv.pass_out⟩
      · intro t' ht'
        simp only [Option.some.injEq] at ht'
        subst ht'
        simp
      · intro t' ht'
        simp only [Option.some.injEq] at ht'
        subst ht'
        simp
      · intro t' ht' hnz
        simp only [Option.some.injEq] at ht'
        subst ht'
        simp at hnz
      · intro t' ht'
        simp only [Option.some.injEq] at ht'
        subst ht'
        simpa using hInv.os_nonneg
      · simp only [stagedLen, carryLen] at hbud hstg ⊢
        omega
      · intro o' ho' hnz
        have := hInv.out_stamp o' ho' hnz
        rw [this]
        simp only [nextPts, posOut, stagedLen, carryLen] at hstg ⊢
        omega
      · intro hw
        have := hInv.out_writ hw
        simpa [carryLen] using this
      · intro _
        rfl
    · simp only [nextPts, posOut, stagedLen, carryLen] at hstg ⊢
      omega
  · -- no allocation needed, conversion succeeded
    constructor
    · refine ⟨le_refl 0, ?_, ?_, ?_, ?_, by simp; omega, ?_, hInv.out_nonneg, hInv.out_lt,
        ?_, ?_, ?_, hInv.pass_out⟩
      · intro t' ht'
        simp only [Option.some.injEq] at ht'
        subst ht'
        simpa using hprod
      · intro t' ht'
        simp only [Option.some.injEq] at ht'
        subst ht'
        simpa using hprod
      · intro t' ht' hnz
        simp only [Option.some.injEq] at ht'
        subst ht'
        simp [posOut]
        omega
      · intro t' ht'
        simp only [Option.some.injEq] at ht'
        subst ht'
        simp
        omega
      · simp only [stagedLen, carryLen] at hbud hstg ⊢
        simp
        omega
      · intro o' ho' hnz
        have := hInv.out_stamp o' ho' hnz
        rw [this]
        simp only [nextPts, posOut, stagedLen, carryLen] at hstg ⊢
        simp
        omega
      · intro hw
        have := hInv.out_writ hw
        simpa [carryLen] using this
      · intro _
        rfl
    · simp [nextPts, posOut, stagedLen, carryLen] at hstg ⊢
      try omega

/-- Invariant transfer across a record update that only touches the drift
counters and the flush flag (none of which the invariant mentions). -/
theorem inv_counters_only (cfg : Config) (s s2 : ResamplerState) (hInv : Inv cfg s)
    (h1 : s2.tmp_frame = s.tmp_frame) (h2 : s2.tmp_frame_capacity = s.tmp_frame_capacity)
    (h3 : s2.tmp_writable = s.tmp_writable) (h4 : s2.output_frame = s.output_frame)
    (h5 : s2.out_writable = s.out_writable) (h6 : s2.output_samples = s.output_samples)
    (h7 : s2.output_pts_offset = s.output_pts_offset) (h8 : s2.offset = s.offset) :
    Inv cfg s2 ∧ nextPts s2 = nextPts s := by
  have hpos : posOut s2 = posOut s := by simp [posOut, h6, h7]
  have hstg : stagedLen s2 = stagedLen s := by simp [stagedLen, h1, h8]
  have hcar : carryLen s2 = carryLen s := by simp [carryLen, h4]
  have hnp : nextPts s2 = nextPts s := by simp [nextPts, hpos, hstg, hcar]
  refine ⟨⟨?_, ?_, ?_, ?_, ?_, ?_, ?_, ?_, ?_, ?_, ?_, ?_, ?_⟩, hnp⟩
  · rw [h8]; exact hInv.offset_nonneg
  · intro t' ht'; rw [h8]; exact hInv.offset_le t' (h1 ▸ ht')
  · intro t' ht'; exact hInv.tmp_nb_nonneg t' (h1 ▸ ht')
  · intro t' ht' hnz; rw [hpos]; exact hInv.tmp_stamp t' (h1 ▸ ht') hnz
  · intro t' ht'; rw [h6]; exact hInv.tmp_le_os t' (h1 ▸ ht')
  · rw [h6]; exact hInv.os_nonneg
  · rw [hstg, hcar, h6]; exact hInv.budget
  · intro o' ho'; exact hInv.out_nonneg o' (h4 ▸ ho')
  · intro o' ho' hnz; exact hInv.out_lt o' (h4 ▸ ho') hnz
  · intro o' ho' hnz; rw [hnp]; exact hInv.out_stamp o' (h4 ▸ ho') hnz
  · intro hw; rw [hcar]; exact hInv.out_writ (h5 ▸ hw)
  · intro hF0; rw [h8]; exact hInv.pass_offset hF0
  · intro hF0; rw [h4]; exact hInv.pass_out hF0

/-- One `push` call preserves the invariant, and preserves `nextPts`
whenever output has already been produced; the side condition `hG` rules
out re-anchoring the pts origin after output exists (`goodOp`). -/
theorem push_step (cfg : Config) (s : ResamplerState) (frame : Option Frame) (k : KernelResp)
    (hInv : Inv cfg s)
    (hG : ∀ f, frame = some f → s.source_samples = 0 → s.output_samples = 0) :
    Inv cfg (push cfg s frame k).state ∧
      (0 < s.output_samples → nextPts (push cfg s frame k).state = nextPts s) := by
  by_cases hg : pendingOutput s
  · have hres : push cfg s frame k = ⟨0, s, []⟩ := by
      unfold push; rw [hg]; simp
    rw [hres]
    exact ⟨hInv, fun _ => rfl⟩
  · rw [Bool.not_eq_true] at hg
    have hstg := stagedLen_gate cfg s hInv hg
    rcases frame with _ | f
    · rw [push_flush hg]
      obtain ⟨hInv1, hnp1⟩ := inv_counters_only cfg s { s with flush := true } hInv
        rfl rfl rfl rfl rfl rfl rfl rfl
      have h := convertStage_step cfg { s with flush := true } none k (k.delay_ret + 3)
        [KernelCall.getDelay cfg.target_sample_rate] hInv1 (by rw [← hstg]; rfl)
      exact ⟨h.1, fun _ => h.2.trans hnp1⟩
    · by_cases hss : s.source_samples = 0
      · -- a pts-origin (re)assignment; admissible only with no output yet
        have hos0 : s.output_samples = 0 := hG f rfl hss
        have hcar0 : carryLen s = 0 := by
          have := hInv.budget
          have h1 := carryLen_nonneg cfg s hInv
          omega
        have hInv1 : Inv cfg (initPts cfg s f.pts) := by
          have hini : initPts cfg s f.pts =
              { s with
                  expected_source_pts := f.pts
                  input_pts_offset := f.pts
                  output_pts_offset :=
                    Int.tdiv (f.pts * cfg.target_sample_rate) cfg.source_sample_rate } := by
            simp [initPts, hss]
          rw [hini]
          refine ⟨hInv.offset_nonneg, hInv.offset_le, hInv.tmp_nb_nonneg, ?_,
            hInv.tmp_le_os, hInv.os_nonneg, ?_, hInv.out_nonneg, hInv.out_lt, ?_,
            ?_, hInv.pass_offset, hInv.pass_out⟩
          · intro t' ht' hnz
            have h1 := hInv.tmp_le_os t' ht'
            have h2 := hInv.tmp_nb_nonneg t' ht'
            omega
          · have h1 := hInv.budget
            have h2 : stagedLen { s with
                expected_source_pts := f.pts
                input_pts_offset := f.pts
                output_pts_offset :=
                  Int.tdiv (f.pts * cfg.target_sample_rate) cfg.source_sample_rate }
                = stagedLen s := by simp [stagedLen]
            have h3 : carryLen { s with
                expected_source_pts := f.pts
                input_pts_offset := f.pts
                output_pts_offset :=
                  Int.tdiv (f.pts * cfg.target_sample_rate) cfg.source_sample_rate }
                = carryLen s := by simp [carryLen]
            rw [h2, h3]
            exact h1
          · intro o' ho' hnz
            have ho2 : s.output_frame = some o' := ho'
            have h1 : carryLen s = o'.nb_samples := by simp [carryLen, ho2]
            omega
          · intro hw
            have h3 : carryLen { s with
                expected_source_pts := f.pts
                input_pts_offset := f.pts
                output_pts_offset :=
                  Int.tdiv (f.pts * cfg.target_sample_rate) cfg.source_sample_rate }
                = carryLen s := by simp [carryLen]
            rw [h3]
            exact hInv.out_writ hw
        have hstg1 : stagedLen (initPts cfg s f.pts) = 0 := by
          unfold initPts
          split_ifs <;> simpa [stagedLen] using hstg
        unfold push
        rw [hg]
        simp only [Bool.false_eq_true, if_false]
        split_ifs with hd1 hd2 hd3 hd4
        · exact ⟨hInv1, fun hos => absurd hos (by omega)⟩
        · obtain ⟨hInvd, -⟩ := inv_counters_only cfg (initPts cfg s f.pts)
            (driftUpdate (initPts cfg s f.pts) f.nb_samples
              (f.pts - (initPts cfg s f.pts).expected_source_pts)) hInv1
            rfl rfl rfl rfl rfl rfl rfl rfl
          have h := convertStage_step cfg _ (some f) k k.out_samples_ret
            [KernelCall.injectSilence (f.pts - (initPts cfg s f.pts).expected_source_pts),
              KernelCall.getOutSamples f.nb_samples] hInvd
            (by rw [← hstg1]; rfl)
          exact ⟨h.1, fun hos => absurd hos (by omega)⟩
        · exact ⟨hInv1, fun hos => absurd hos (by omega)⟩
        · obtain ⟨hInvd, -⟩ := inv_counters_only cfg (initPts cfg s f.pts)
            (driftUpdate (initPts cfg s f.pts) f.nb_samples
              (f.pts - (initPts cfg s f.pts).expected_source_pts)) hInv1
            rfl rfl rfl rfl rfl rfl rfl rfl
          have h := convertStage_step cfg _ (some f) k k.out_samples_ret
            [KernelCall.dropOutput
                (dropCount cfg (f.pts - (initPts cfg s f.pts).expected_source_pts)),
              KernelCall.getOutSamples f.nb_samples] hInvd
            (by rw [← hstg1]; rfl)
          exact ⟨h.1, fun hos => absurd hos (by omega)⟩
        · obtain ⟨hInvd, -⟩ := inv_counters_only cfg (initPts cfg s f.pts)
            (driftUpdate (initPts cfg s f.pts) f.nb_samples
              (f.pts - (initPts cfg s f.pts).expected_source_pts)) hInv1
            rfl rfl rfl rfl rfl rfl rfl rfl
          have h := convertStage_step cfg _ (some f) k k.out_samples_ret
            [KernelCall.getOutSamples f.nb_samples] hInvd
            (by rw [← hstg1]; rfl)
          exact ⟨h.1, fun hos => absurd hos (by omega)⟩
      · -- established origin: `initPts` is the identity
        have hinit : initPts cfg s f.pts = s := by simp [initPts, hss]
        unfold push
        rw [hg]
        simp only [Bool.false_eq_true, if_false]
        rw [hinit]
        split_ifs with hd1 hd2 hd3 hd4
        · exact ⟨hInv, fun _ => rfl⟩
        · obtain ⟨hInvd, hnpd⟩ := inv_counters_only cfg s
            (driftUpdate s f.nb_samples (f.pts - s.expected_source_pts)) hInv
            rfl rfl rfl rfl rfl rfl rfl rfl
          have h := convertStage_step cfg _ (some f) k k.out_samples_ret
            [KernelCall.injectSilence (f.pts - s.expected_source_pts),
              KernelCall.getOutSamples f.nb_samples] hInvd
            (by rw [← hstg]; rfl)
          exact ⟨h.1, fun _ => h.2.trans hnpd⟩
        · exact ⟨hInv, fun _ => rfl⟩
        · obtain ⟨hInvd, hnpd⟩ := inv_counters_only cfg s
            (driftUpdate s f.nb_samples (f.pts - s.expected_source_pts)) hInv
            rfl rfl rfl rfl rfl rfl rfl rfl
          have h := convertStage_step cfg _ (some f) k k.out_samples_ret
            [KernelCall.dropOutput (dropCount cfg (f.pts - s.expected_source_pts)),
              KernelCall.getOutSamples f.nb_samples] hInvd
            (by rw [← hstg]; rfl)
          exact ⟨h.1, fun _ => h.2.trans hnpd⟩
        · obtain ⟨hInvd, hnpd⟩ := inv_counters_only cfg s
            (driftUpdate s f.nb_samples (f.pts - s.expected_source_pts)) hInv
            rfl rfl rfl rfl rfl rfl rfl rfl
          have h := convertStage_step cfg _ (some f) k k.out_samples_ret
            [KernelCall.getOutSamples f.nb_samples] hInvd
            (by rw [← hstg]; rfl)
          exact ⟨h.1, fun _ => h.2.trans hnpd⟩

/-- Every run from an invariant state under `goodRun` side conditions
emits a frame list whose non-empty frames follow `nextPts` exactly. -/
theorem run_follows (cfg : Config) :
    ∀ (ops : List Op) (s : ResamplerState) (a : Option Int),
      Inv cfg s → goodRun cfg s ops = true →
      (a = none ∨ (a = some (nextPts s) ∧ 0 < s.output_samples)) →
      FollowsFrom a (run cfg s ops).2 := by
  intro ops
  induction ops with
  | nil =>
      intro s a _ _ _
      simp [run, FollowsFrom]
  | cons op ops ih =>
      intro s a hInv hgood ha
      rw [goodRun, Bool.and_eq_true] at hgood
      obtain ⟨hop, hgood2⟩ := hgood
      cases op with
      | pushOp fr k =>
          have hG : ∀ f, fr = some f → s.source_samples = 0 → s.output_samples = 0 := by
            intro f hfr hss
            subst hfr
            simpa [goodOp, hss] using hop
          obtain ⟨hInv2, hnp⟩ := push_step cfg s fr k hInv hG
          have hfr : (run cfg s (Op.pushOp fr k :: ops)).2
              = (run cfg (push cfg s fr k).state ops).2 := by
            simp [run, stepOp]
          rw [hfr]
          refine ih (push cfg s fr k).state a hInv2 ?_ ?_
          · simpa [stepOp] using hgood2
          · rcases ha with rfl | ⟨rfl, hos⟩
            · exact Or.inl rfl
            · refine Or.inr ⟨by rw [hnp hos], ?_⟩
              have := push_os_mono cfg s fr k
              omega
      | takeOp r =>
          obtain ⟨hInv2, hos2, hnone, hsome⟩ := take_step cfg s r hInv
          have hgood3 : goodRun cfg (take cfg s r).state ops = true := by
            simpa [stepOp] using hgood2
          rcases hfr : (take cfg s r).frame with _ | f
          · have hrw : (run cfg s (Op.takeOp r :: ops)).2
                = (run cfg (take cfg s r).state ops).2 := by
              simp [run, stepOp, hfr]
            rw [hrw]
            refine ih (take cfg s r).state a hInv2 hgood3 ?_
            rcases ha with rfl | ⟨rfl, hos⟩
            · exact Or.inl rfl
            · exact Or.inr ⟨by rw [hnone hfr], by omega⟩
          · have hrw : (run cfg s (Op.takeOp r :: ops)).2
                = f :: (run cfg (take cfg s r).state ops).2 := by
              simp [run, stepOp, hfr]
            rw [hrw]
            obtain ⟨hfnn, hzero, hnzero⟩ := hsome f hfr
            by_cases hz : f.nb_samples = 0
            · rw [FollowsFrom, if_pos hz]
              refine ih (take cfg s r).state a hInv2 hgood3 ?_
              rcases ha with rfl | ⟨rfl, hos⟩
              · exact Or.inl rfl
              · exact Or.inr ⟨by rw [hzero hz], by omega⟩
            · rw [FollowsFrom, if_neg hz]
              obtain ⟨hpts, hnext, hos⟩ := hnzero hz
              refine ⟨by omega, ?_, ?_⟩
              · intro p hp
                rcases ha with rfl | ⟨haeq, -⟩
                · cases hp
                · rw [hp] at haeq
                  simp only [Option.some.injEq] at haeq
                  rw [hpts, haeq]
              · refine ih (take cfg s r).state (some (f.pts + f.nb_samples)) hInv2 hgood3 ?_
                exact Or.inr ⟨by rw [hnext], by omega⟩

/-- A `FollowsFrom` frame list, restricted to its non-empty frames, chains
exactly: each frame's pts equals its predecessor's pts plus the
predecessor's length (hence pts are non-decreasing). -/
theorem followsFrom_chain :
    ∀ (l : List Frame) (a : Option Int), FollowsFrom a l →
      List.Chain' (fun f g : Frame => f.pts ≤ g.pts ∧ g.pts = f.pts + f.nb_samples)
          (l.filter fun f => decide (f.nb_samples ≠ 0)) ∧
        (∀ p g, a = some p →
          (l.filter fun f => decide (f.nb_samples ≠ 0)).head? = some g →
          g.pts = p ∧ 0 < g.nb_samples) := by
  intro l
  induction l with
  | nil =>
      intro a _
      exact ⟨List.chain'_nil, fun p g _ hg => by simp at hg⟩
  | cons f t ih =>
      intro a hF
      by_cases hz : f.nb_samples = 0
      · rw [FollowsFrom, if_pos hz] at hF
        have hfil : (f :: t).filter (fun f => decide (f.nb_samples ≠ 0))
            = t.filter (fun f => decide (f.nb_samples ≠ 0)) := by
          simp [List.filter, hz]
        rw [hfil]
        exact ih a hF
      · rw [FollowsFrom, if_neg hz] at hF
        obtain ⟨hpos, hfp, hrest⟩ := hF
        obtain ⟨hchain, hhead⟩ := ih (some (f.pts + f.nb_samples)) hrest
        have hfil : (f :: t).filter (fun f => decide (f.nb_samples ≠ 0))
            = f :: t.filter (fun f => decide (f.nb_samples ≠ 0)) := by
          simp [List.filter, hz]
        rw [hfil]
        constructor
        · rw [List.chain'_cons']
          refine ⟨?_, hchain⟩
          intro g hg
          rw [Option.mem_def] at hg
          obtain ⟨hgpts, hgpos⟩ := hhead (f.pts + f.nb_samples) g rfl hg
          exact ⟨by omega, by omega⟩
        · intro p g hp hg
          simp only [List.head?_cons, Option.some.injEq] at hg
          subst hg
          exact ⟨hfp p hp, by omega⟩

/-- C6 counterexample: with source rate 1 and target rate 2 (rate ratio 2)
in passthrough mode, two contiguous chunks of one sample each (the kernel
producing two output samples per chunk) yield the frames
`(pts 0, len 2), (pts 2, len 2)`: the successive `target_pts` increment is
2 — exactly the predecessor frame's sample count — and not the claimed
"sample count divided by the rate ratio", which would be `2 / 2 = 1`. -/
theorem pts_increment_ratio_cex :
    (run ⟨2, 1, 0⟩ initState
        [Op.pushOp (some ⟨0, 1⟩) ⟨0, 0, 2, 0, false, true, 0, 2⟩,
         Op.takeOp ⟨false, true⟩,
         Op.pushOp (some ⟨1, 1⟩) ⟨0, 0, 2, 0, false, true, 0, 2⟩,
         Op.takeOp ⟨false, true⟩]).2
      = [⟨0, 2⟩, ⟨2, 2⟩] ∧
    ((2 : Int) - 0 = 2) ∧
    Int.tdiv (2 * (1 : Int)) 2 = 1 ∧
    ¬ ((2 : Int) - 0 = Int.tdiv (2 * 1) 2) := by
  refine ⟨?_, ?_, ?_, ?_⟩ <;> decide

/-- C6 (amended): across every admissible run (one in which no drift
correction drives `source_samples` back to zero after output was already
produced — `goodRun`), the emitted non-empty frames' `target_pts` values
are non-decreasing, and each successive non-empty frame's `target_pts`
exceeds its predecessor's by exactly the predecessor's sample count, in
target-rate ticks (not divided by the rate ratio).  Zero-length frames —
which can arise only when draining a flush in fixed-frame-size mode —
repeat a stale timestamp and are excluded. -/
theorem pts_chain_monotone (cfg : Config) (ops : List Op)
    (hgood : goodRun cfg initState ops = true) :
    List.Chain' (fun f g : Frame => f.pts ≤ g.pts ∧ g.pts = f.pts + f.nb_samples)
      (((run cfg initState ops).2).filter fun f => decide (f.nb_samples ≠ 0)) :=
  (followsFrom_chain (run cfg initState ops).2 none
    (run_follows cfg ops initState none (inv_initState cfg) hgood (Or.inl rfl))).1

theorem pts_chain_monotone_witness :
    goodRun ⟨2, 1, 0⟩ initState
        [Op.pushOp (some ⟨0, 1⟩) ⟨0, 0, 2, 0, false, true, 0, 2⟩,
         Op.takeOp ⟨false, true⟩,
         Op.pushOp (some ⟨1, 1⟩) ⟨0, 0, 2, 0, false, true, 0, 2⟩,
         Op.takeOp ⟨false, true⟩] = true ∧
      List.Chain' (fun f g : Frame => f.pts ≤ g.pts ∧ g.pts = f.pts + f.nb_samples)
        (((run ⟨2, 1, 0⟩ initState
            [Op.pushOp (some ⟨0, 1⟩) ⟨0, 0, 2, 0, false, true, 0, 2⟩,
             Op.takeOp ⟨false, true⟩,
             Op.pushOp (some ⟨1, 1⟩) ⟨0, 0, 2, 0, false, true, 0, 2⟩,
             Op.takeOp ⟨false, true⟩]).2).filter fun f => decide (f.nb_samples ≠ 0)) :=
  ⟨by decide,
    pts_chain_monotone ⟨2, 1, 0⟩
      [Op.pushOp (some ⟨0, 1⟩) ⟨0, 0, 2, 0, false, true, 0, 2⟩,
       Op.takeOp ⟨false, true⟩,
       Op.pushOp (some ⟨1, 1⟩) ⟨0, 0, 2, 0, false, true, 0, 2⟩,
       Op.takeOp ⟨false, true⟩] (by decide)⟩

end Resampler
